import Mathlib

/-!
Shallow embedding of the pugl-ui widget-layout and event-routing core
(src/widget.rs, src/ui.rs, src/layout/stacklayout.rs, src/layout/layoutwidget.rs).

Real-number quantities (`f64` in the source) are modelled as exact rationals
`ℚ`; `usize` arithmetic is modelled as `Nat` with explicit wrap-around
(`% 2 ^ 64`) where the source can underflow.  The widget store
(`Vec<Box<dyn Widget>>`) is modelled as a total function `Nat → Widget`;
out-of-range vector indexing (a Rust panic) is excluded by explicit
bounds checks or side conditions in the theorems.  Recursions that the
source performs through index indirection (a node's layouter holds slot
indices into the children list) are given as fuel-indexed functions that
return `none` when the fuel runs out; all theorems hypothesise a successful
(`some`) run, which pins down the same semantics as the Rust recursion.
-/

namespace PuglUI

/-- Size, as in pugl_sys::Size (w, h : f64). -/
structure Size where
  w : ℚ
  h : ℚ
deriving DecidableEq

/-- Coord, as in pugl_sys::Coord (x, y : f64). -/
structure Coord where
  x : ℚ
  y : ℚ
deriving DecidableEq

/-- Layout: the rectangle a widget covers (widget.rs, struct Layout). -/
structure Layout where
  pos : Coord
  size : Size
deriving DecidableEq

/-- The concrete kind of a stored widget, as far as the core dispatches on
it: a `Spacer` (stacklayout.rs), a `LayoutWidget` (layoutwidget.rs), or any
other user widget (`plain`).  The source discriminates via `downcast_ref`
and via the overridden trait methods of these two library types. -/
inductive WKind where
  | plain
  | spacer
  | layoutWidget
deriving DecidableEq

/-- Widget state: the `WidgetStub` fields together with the trait-level
attributes the core reads (`min_size`, expandability, `takes_focus`) and
the `LayoutWidget` lock flags.  For `plain` widgets the attribute fields
stand for the constant values the user implementation returns. -/
structure Widget where
  kind : WKind
  min_size : Size
  width_expandable : Bool
  height_expandable : Bool
  width_locked : Bool
  height_locked : Bool
  takes_focus : Bool
  layout : Layout
  has_focus : Bool
  hovered : Bool
  needs_repaint : Bool
  sensitive : Bool
deriving DecidableEq

instance : Inhabited Widget :=
  ⟨{ kind := .plain
     min_size := ⟨0, 0⟩
     width_expandable := false
     height_expandable := false
     width_locked := false
     height_locked := false
     takes_focus := false
     layout := ⟨⟨0, 0⟩, ⟨0, 0⟩⟩
     has_focus := false
     hovered := false
     needs_repaint := false
     sensitive := true }⟩

/-- Widget::size. -/
def Widget.size (wg : Widget) : Size := wg.layout.size

/-- Widget::pos. -/
def Widget.position (wg : Widget) : Coord := wg.layout.pos

/-- Widget::sized_width: default `min_size().w > 0.0`; LayoutWidget
overrides it to `true`. -/
def Widget.sized_width (wg : Widget) : Bool :=
  wg.kind == .layoutWidget || decide (0 < wg.min_size.w)

/-- Widget::sized_height: default `min_size().h > 0.0`; LayoutWidget
overrides it to `true`. -/
def Widget.sized_height (wg : Widget) : Bool :=
  wg.kind == .layoutWidget || decide (0 < wg.min_size.h)

/-- Widget::set_width. -/
def Widget.set_width (wg : Widget) (v : ℚ) : Widget :=
  { wg with layout := { wg.layout with size := { wg.layout.size with w := v } } }

/-- Widget::set_height. -/
def Widget.set_height (wg : Widget) (v : ℚ) : Widget :=
  { wg with layout := { wg.layout with size := { wg.layout.size with h := v } } }

/-- Widget::expand_width. -/
def Widget.expand_width (wg : Widget) (amount : ℚ) : Widget :=
  { wg with layout :=
    { wg.layout with size := { wg.layout.size with w := wg.layout.size.w + amount } } }

/-- Widget::expand_height. -/
def Widget.expand_height (wg : Widget) (amount : ℚ) : Widget :=
  { wg with layout :=
    { wg.layout with size := { wg.layout.size with h := wg.layout.size.h + amount } } }

/-- Widget::set_pos. -/
def Widget.set_pos (wg : Widget) (p : Coord) : Widget :=
  { wg with layout := { wg.layout with pos := p } }

/-- Widget::set_size. -/
def Widget.set_size (wg : Widget) (s : Size) : Widget :=
  { wg with layout := { wg.layout with size := s } }

/-- Widget::set_layout. -/
def Widget.set_layout (wg : Widget) (l : Layout) : Widget :=
  { wg with layout := l }

/-- LayoutWidget::set_expandable (layoutwidget.rs): locked axes refuse
expandability. -/
def Widget.set_expandable (wg : Widget) (we he : Bool) : Widget :=
  { wg with width_expandable := we && !wg.width_locked
            height_expandable := he && !wg.height_locked }

/-- Widget::is_hit_by: strict interior containment of a point. -/
def Widget.is_hit_by (wg : Widget) (p : Coord) : Bool :=
  let l := wg.layout
  decide (p.x > l.pos.x) && decide (p.x < l.pos.x + l.size.w) &&
  decide (p.y > l.pos.y) && decide (p.y < l.pos.y + l.size.h)

/-- The widget store: `Vec<Box<dyn Widget>>` modelled as a total map from
widget ids. -/
abbrev Store := Nat → Widget

/-- Pointwise update of the store at one id (a `&mut` write through
`widgets[id]`). -/
def upd (ws : Store) (i : Nat) (wg : Widget) : Store :=
  fun j => if j = i then wg else ws j

@[simp] theorem upd_same (ws : Store) (i : Nat) (wg : Widget) : upd ws i wg i = wg := by
  simp [upd]

@[simp] theorem upd_ne (ws : Store) (i j : Nat) (wg : Widget) (h : j ≠ i) :
    upd ws i wg j = ws j := by
  simp [upd, h]

/-- Stacking orientation; the source realizes the two cases as the types
HorizontalLayouter/VerticalLayouter with their `LengthCrossExpander`s. -/
inductive Orient where
  | horizontal
  | vertical
deriving DecidableEq

/-- LengthCrossExpander::length. -/
def Orient.len (o : Orient) (s : Size) : ℚ :=
  match o with
  | .horizontal => s.w
  | .vertical => s.h

/-- LengthCrossExpander::cross. -/
def Orient.cross (o : Orient) (s : Size) : ℚ :=
  match o with
  | .horizontal => s.h
  | .vertical => s.w

/-- LengthCrossExpander::sized_length. -/
def Orient.sized_length (o : Orient) (wg : Widget) : Bool :=
  match o with
  | .horizontal => wg.sized_width
  | .vertical => wg.sized_height

/-- LengthCrossExpander::length_expandable. -/
def Orient.length_expandable (o : Orient) (wg : Widget) : Bool :=
  match o with
  | .horizontal => wg.width_expandable
  | .vertical => wg.height_expandable

/-- LengthCrossExpander::set_cross: acts only on a cross-expandable
widget. -/
def Orient.set_cross (o : Orient) (wg : Widget) (v : ℚ) : Widget :=
  match o with
  | .horizontal => if wg.height_expandable then wg.set_height v else wg
  | .vertical => if wg.width_expandable then wg.set_width v else wg

/-- LengthCrossExpander::expand_length: acts only on a length-expandable
widget. -/
def Orient.expand_length (o : Orient) (wg : Widget) (amount : ℚ) : Widget :=
  match o with
  | .horizontal => if wg.width_expandable then wg.expand_width amount else wg
  | .vertical => if wg.height_expandable then wg.expand_height amount else wg

/-- LengthCrossExpander::real_coord. -/
def Orient.real_coord (o : Orient) (lenPos crossPos : ℚ) : Coord :=
  match o with
  | .horizontal => ⟨lenPos, crossPos⟩
  | .vertical => ⟨crossPos, lenPos⟩

/-- LengthCrossExpander::len_cross_pos. -/
def Orient.len_cross_pos (o : Orient) (p : Coord) : ℚ × ℚ :=
  match o with
  | .horizontal => (p.x, p.y)
  | .vertical => (p.y, p.x)

/-- LengthCrossExpander::real_size. -/
def Orient.real_size (o : Orient) (length crossv : ℚ) : Size :=
  match o with
  | .horizontal => ⟨length, crossv⟩
  | .vertical => ⟨crossv, length⟩

/-- StackLayoutData together with the orientation its owning layouter
fixes: padding, spacing, and the deque of child slot indices. -/
structure StackLayoutData where
  orient : Orient
  padding : ℚ
  spacing : ℚ
  subnodes : List Nat
deriving DecidableEq

/-- WidgetNode (ui.rs): widget id, optional layouter, ordered children. -/
inductive WidgetNode where
  | mk (id : Nat) (layouter : Option StackLayoutData) (children : List WidgetNode)

/-- Widget id held by the node. -/
def WidgetNode.id : WidgetNode → Nat
  | .mk i _ _ => i

/-- Layouter held by the node. -/
def WidgetNode.layouter : WidgetNode → Option StackLayoutData
  | .mk _ l _ => l

/-- Children of the node. -/
def WidgetNode.children : WidgetNode → List WidgetNode
  | .mk _ _ ch => ch

instance : Inhabited WidgetNode := ⟨.mk 0 none []⟩

/-- Indexing `children[sn]` on a slot index; all uses are guarded by bounds
checks or bounds hypotheses mirroring the Rust panics. -/
def nodeAt (ch : List WidgetNode) (sn : Nat) : WidgetNode :=
  ch.getD sn default

/-- usize wrap-around subtraction of one, as `(count - 1) as f64` behaves in
the source when `count = 0` (release-profile wrapping semantics). -/
def usize_sub_one (n : Nat) : Nat :=
  (n + (2 ^ 64 - 1)) % 2 ^ 64

mutual

/-- WidgetNode::calc_widget_sizes together with
StackLayouterImpl::do_calc_size: bottom-up phase-1 size computation.  A
childless node takes its widget's min_size; an internal node without a
layouter is the source's panic (`none`); otherwise the layouter folds over
its subnodes accumulating length (plus a spacing gap after every
length-sized child), takes the running maximum of the cross sizes, and
finishes with `padding - spacing` on the length and `2 * padding` on the
cross. -/
def calc_widget_sizes : Nat → WidgetNode → Store → Option (Store × Size)
  | 0, _, _ => none
  | fuel + 1, .mk i lay ch, ws =>
    if ch.isEmpty then
      let size := (ws i).min_size
      some (upd ws i ((ws i).set_size size), size)
    else
      match lay with
      | none => none
      | some d =>
        match calc_size_kids fuel d.orient d.spacing ch d.subnodes d.padding 0 ws with
        | none => none
        | some (ws1, needL, needC) =>
          let size := d.orient.real_size (needL + d.padding - d.spacing) (needC + 2 * d.padding)
          some (upd ws1 i ((ws1 i).set_size size), size)

/-- The loop body of do_calc_size over the layouter's subnode deque. -/
def calc_size_kids : Nat → Orient → ℚ → List WidgetNode → List Nat → ℚ → ℚ → Store →
    Option (Store × ℚ × ℚ)
  | 0, _, _, _, _, _, _, _ => none
  | _ + 1, _, _, _, [], accL, accC, ws => some (ws, accL, accC)
  | fuel + 1, o, sp, ch, sn :: rest, accL, accC, ws =>
    match ch[sn]? with
    | none => none
    | some c =>
      match calc_widget_sizes fuel c ws with
      | none => none
      | some (ws1, size) =>
        let accL1 := accL + o.len size
        let accC1 := if o.cross size > accC then o.cross size else accC
        let accL2 := if o.sized_length (ws1 c.id) then accL1 + sp else accL1
        calc_size_kids fuel o sp ch rest accL2 accC1 ws1

end

/-- LayoutApplyer::count_spacers: subnode widgets downcastable to Spacer. -/
def count_spacers (ch : List WidgetNode) (subnodes : List Nat) (ws : Store) : Nat :=
  (subnodes.filter (fun sn => (ws (nodeAt ch sn).id).kind == .spacer)).length

/-- LayoutApplyer::count_expandables. -/
def count_expandables (o : Orient) (ch : List WidgetNode) (subnodes : List Nat)
    (ws : Store) : Nat :=
  (subnodes.filter (fun sn => o.length_expandable (ws (nodeAt ch sn).id))).length

/-- LayoutApplyer::expandable_length: the slack left by the available
length after spacing gaps, padding and the natural child lengths.  The
source computes `spacing * (sized_widgets - 1) as f64` on a `usize`, which
wraps around when no subnode is length-sized. -/
def expandable_length (o : Orient) (spacing padding : ℚ) (size_avail : Size)
    (ch : List WidgetNode) (subnodes : List Nat) (ws : Store) : ℚ :=
  let sized_widgets := (subnodes.filter (fun sn => o.sized_length (ws (nodeAt ch sn).id))).length
  let needed_spacing := spacing * (usize_sub_one sized_widgets : ℚ)
  let available_length := o.len size_avail - needed_spacing - 2 * padding
  let natural_length := subnodes.foldl (fun acc sn => acc + o.len ((ws (nodeAt ch sn).id).size)) 0
  available_length - natural_length

/-- LayoutApplyer::apply_cross: permit every cross-expandable subnode to
fill the container's cross extent minus the padding. -/
def apply_cross (o : Orient) (padding : ℚ) (size_avail : Size) (ch : List WidgetNode)
    (subnodes : List Nat) (ws : Store) : Store :=
  let avail := o.cross size_avail - 2 * padding
  subnodes.foldl (fun ws sn => upd ws (nodeAt ch sn).id (o.set_cross (ws (nodeAt ch sn).id) avail)) ws

/-- LayoutApplyer::expand_spacers: with at least one Spacer subnode,
distribute the whole slack equally over the Spacers and report `true`;
otherwise report `false` untouched. -/
def expand_spacers (o : Orient) (spacing padding : ℚ) (size_avail : Size)
    (ch : List WidgetNode) (subnodes : List Nat) (ws : Store) : Store × Bool :=
  let spacers := count_spacers ch subnodes ws
  if spacers = 0 then (ws, false)
  else
    let expand_each := expandable_length o spacing padding size_avail ch subnodes ws / (spacers : ℚ)
    (subnodes.foldl (fun ws sn =>
      let cid := (nodeAt ch sn).id
      if (ws cid).kind == .spacer then upd ws cid (o.expand_length (ws cid) expand_each) else ws)
      ws, true)

/-- LayoutApplyer::expand_expandable_widgets: with at least one
length-expandable subnode, distribute the slack equally over the
length-expandable non-Spacer subnodes. -/
def expand_expandable_widgets (o : Orient) (spacing padding : ℚ) (size_avail : Size)
    (ch : List WidgetNode) (subnodes : List Nat) (ws : Store) : Store :=
  let expandable_widgets := count_expandables o ch subnodes ws
  if expandable_widgets = 0 then ws
  else
    let expand_each :=
      expandable_length o spacing padding size_avail ch subnodes ws / (expandable_widgets : ℚ)
    subnodes.foldl (fun ws sn =>
      let cid := (nodeAt ch sn).id
      if (ws cid).kind == .spacer then ws else upd ws cid (o.expand_length (ws cid) expand_each))
      ws

mutual

/-- WidgetNode::apply_sizes together with
StackLayouterImpl::do_apply_layouts: top-down phase-2 application.  A node
without a layouter is left alone; otherwise the available size is the
node's own current size, the cross extents are applied, Spacers absorb the
slack (falling back to the length-expandable widgets when there is no
Spacer), and the children are positioned in stack order.  The out-of-range
slot indices that would make the Rust loops panic are rejected up front. -/
def apply_sizes : Nat → WidgetNode → Coord → Store → Option Store
  | 0, _, _, _ => none
  | fuel + 1, .mk i lay ch, orig_pos, ws =>
    match lay with
    | none => some ws
    | some d =>
      if d.subnodes.all (fun sn => sn < ch.length) then
        let size_avail := (ws i).size
        let ws1 := apply_cross d.orient d.padding size_avail ch d.subnodes ws
        let p := expand_spacers d.orient d.spacing d.padding size_avail ch d.subnodes ws1
        let ws2 := if p.2 then p.1
          else expand_expandable_widgets d.orient d.spacing d.padding size_avail ch d.subnodes p.1
        let lc := d.orient.len_cross_pos orig_pos
        apply_positions fuel d.orient d.padding d.spacing lc.2 ch d.subnodes (lc.1 + d.padding) 0 ws2
      else none

/-- LayoutApplyer::apply_positions: walk the subnodes advancing a running
length position; a spacing gap is charged exactly between two consecutive
length-sized subnodes; each child is recursed into with its freshly set
position. -/
def apply_positions : Nat → Orient → ℚ → ℚ → ℚ → List WidgetNode → List Nat → ℚ → ℚ → Store →
    Option Store
  | 0, _, _, _, _, _, _, _, _, _ => none
  | _ + 1, _, _, _, _, _, [], _, _, ws => some ws
  | fuel + 1, o, padding, sp, crossPos, ch, sn :: rest, len_pos, spacing, ws =>
    let c := nodeAt ch sn
    let szd := o.sized_length (ws c.id)
    let gap := if szd then spacing else 0
    let len_pos1 := len_pos + gap
    let spacing_next := if szd then sp else 0
    let pos := o.real_coord len_pos1 (crossPos + padding)
    let ws1 := upd ws c.id ((ws c.id).set_pos pos)
    let length := o.len ((ws1 c.id).size)
    match apply_sizes fuel c pos ws1 with
    | none => none
    | some ws2 => apply_positions fuel o padding sp crossPos ch rest (len_pos1 + length) spacing_next ws2

end

mutual

/-- WidgetNode::detect_expandables: aggregate, bottom-up, whether any leaf
of the subtree is width/height expandable, annotating every non-root
internal node's LayoutWidget; a non-root internal node whose widget is not
a LayoutWidget is the source's downcast panic (`none`). -/
def detect_expandables : WidgetNode → Store → Option (Store × Bool × Bool)
  | .mk i _ [], ws => some (ws, (ws i).width_expandable, (ws i).height_expandable)
  | .mk i _ (c :: cs), ws =>
    match detect_kids (c :: cs) ws with
    | none => none
    | some (ws1, we, he) =>
      if i = 0 then some (ws1, we, he)
      else if (ws1 i).kind == .layoutWidget then
        some (upd ws1 i ((ws1 i).set_expandable we he), we, he)
      else none

/-- The child loop of detect_expandables. -/
def detect_kids : List WidgetNode → Store → Option (Store × Bool × Bool)
  | [], ws => some (ws, false, false)
  | c :: rest, ws =>
    match detect_expandables c ws with
    | none => none
    | some (ws1, we, he) =>
      match detect_kids rest ws1 with
      | none => none
      | some (ws2, we2, he2) => some (ws2, we || we2, he || he2)

end

@[simp] theorem WidgetNode.id_mk (i : Nat) (l : Option StackLayoutData) (c : List WidgetNode) :
    (WidgetNode.mk i l c).id = i := rfl

@[simp] theorem WidgetNode.layouter_mk (i : Nat) (l : Option StackLayoutData) (c : List WidgetNode) :
    (WidgetNode.mk i l c).layouter = l := rfl

@[simp] theorem WidgetNode.children_mk (i : Nat) (l : Option StackLayoutData) (c : List WidgetNode) :
    (WidgetNode.mk i l c).children = c := rfl

@[simp] theorem set_size_kind (wg : Widget) (s : Size) : (wg.set_size s).kind = wg.kind := rfl

@[simp] theorem set_size_min (wg : Widget) (s : Size) : (wg.set_size s).min_size = wg.min_size := rfl

@[simp] theorem set_size_size (wg : Widget) (s : Size) : (wg.set_size s).size = s := rfl

@[simp] theorem set_size_pos (wg : Widget) (s : Size) :
    (wg.set_size s).layout.pos = wg.layout.pos := rfl

@[simp] theorem set_size_wexp (wg : Widget) (s : Size) :
    (wg.set_size s).width_expandable = wg.width_expandable := rfl

@[simp] theorem set_size_hexp (wg : Widget) (s : Size) :
    (wg.set_size s).height_expandable = wg.height_expandable := rfl

@[simp] theorem set_size_set_size (wg : Widget) (s t : Size) :
    (wg.set_size s).set_size t = wg.set_size t := rfl

@[simp] theorem set_pos_kind (wg : Widget) (p : Coord) : (wg.set_pos p).kind = wg.kind := rfl

@[simp] theorem set_pos_min (wg : Widget) (p : Coord) : (wg.set_pos p).min_size = wg.min_size := rfl

@[simp] theorem set_pos_size (wg : Widget) (p : Coord) : (wg.set_pos p).size = wg.size := rfl

@[simp] theorem set_pos_pos (wg : Widget) (p : Coord) : (wg.set_pos p).layout.pos = p := rfl

@[simp] theorem set_pos_wexp (wg : Widget) (p : Coord) :
    (wg.set_pos p).width_expandable = wg.width_expandable := rfl

@[simp] theorem set_pos_hexp (wg : Widget) (p : Coord) :
    (wg.set_pos p).height_expandable = wg.height_expandable := rfl

@[simp] theorem sized_width_set_size (wg : Widget) (s : Size) :
    (wg.set_size s).sized_width = wg.sized_width := rfl

@[simp] theorem sized_height_set_size (wg : Widget) (s : Size) :
    (wg.set_size s).sized_height = wg.sized_height := rfl

@[simp] theorem set_cross_kind (o : Orient) (wg : Widget) (v : ℚ) :
    (o.set_cross wg v).kind = wg.kind := by
  cases o <;> simp only [Orient.set_cross] <;> split <;> rfl

@[simp] theorem set_cross_min (o : Orient) (wg : Widget) (v : ℚ) :
    (o.set_cross wg v).min_size = wg.min_size := by
  cases o <;> simp only [Orient.set_cross] <;> split <;> rfl

@[simp] theorem set_cross_len (o : Orient) (wg : Widget) (v : ℚ) :
    o.len (o.set_cross wg v).size = o.len wg.size := by
  cases o <;> simp only [Orient.set_cross] <;> split <;> rfl

@[simp] theorem set_cross_wexp (o : Orient) (wg : Widget) (v : ℚ) :
    (o.set_cross wg v).width_expandable = wg.width_expandable := by
  cases o <;> simp only [Orient.set_cross] <;> split <;> rfl

@[simp] theorem set_cross_hexp (o : Orient) (wg : Widget) (v : ℚ) :
    (o.set_cross wg v).height_expandable = wg.height_expandable := by
  cases o <;> simp only [Orient.set_cross] <;> split <;> rfl

@[simp] theorem expand_length_kind (o : Orient) (wg : Widget) (a : ℚ) :
    (o.expand_length wg a).kind = wg.kind := by
  cases o <;> simp only [Orient.expand_length] <;> split <;> rfl

@[simp] theorem expand_length_min (o : Orient) (wg : Widget) (a : ℚ) :
    (o.expand_length wg a).min_size = wg.min_size := by
  cases o <;> simp only [Orient.expand_length] <;> split <;> rfl

@[simp] theorem expand_length_wexp (o : Orient) (wg : Widget) (a : ℚ) :
    (o.expand_length wg a).width_expandable = wg.width_expandable := by
  cases o <;> simp only [Orient.expand_length] <;> split <;> rfl

@[simp] theorem expand_length_hexp (o : Orient) (wg : Widget) (a : ℚ) :
    (o.expand_length wg a).height_expandable = wg.height_expandable := by
  cases o <;> simp only [Orient.expand_length] <;> split <;> rfl

theorem expand_length_len (o : Orient) (wg : Widget) (a : ℚ) :
    o.len (o.expand_length wg a).size =
      o.len wg.size + (if o.length_expandable wg then a else 0) := by
  cases o <;> simp only [Orient.expand_length, Orient.length_expandable] <;> split <;>
    simp [Orient.len, Widget.expand_width, Widget.expand_height, Widget.size]

theorem sized_length_congr (o : Orient) (w1 w2 : Widget) (hk : w1.kind = w2.kind)
    (hm : w1.min_size = w2.min_size) : o.sized_length w1 = o.sized_length w2 := by
  cases o <;> simp [Orient.sized_length, Widget.sized_width, Widget.sized_height, hk, hm]

/-- Widget stores agreeing on the fields phase-1 reads (concrete kind and
minimum size); all phase-1 writes preserve this view. -/
def immut_eq (ws1 ws2 : Store) : Prop :=
  ∀ j, (ws1 j).kind = (ws2 j).kind ∧ (ws1 j).min_size = (ws2 j).min_size

theorem immut_eq_refl (ws : Store) : immut_eq ws ws := fun _ => ⟨rfl, rfl⟩

theorem immut_eq_trans {ws1 ws2 ws3 : Store} (h1 : immut_eq ws1 ws2) (h2 : immut_eq ws2 ws3) :
    immut_eq ws1 ws3 :=
  fun j => ⟨(h1 j).1.trans (h2 j).1, (h1 j).2.trans (h2 j).2⟩

/-- Applying an ordered list of (id, size) writes to the store; this is
exactly the sequence of `set_size` mutations a phase-1 run performs. -/
def apply_writes (L : List (Nat × Size)) (ws : Store) : Store :=
  L.foldl (fun ws iv => upd ws iv.1 ((ws iv.1).set_size iv.2)) ws

@[simp] theorem apply_writes_nil (ws : Store) : apply_writes [] ws = ws := rfl

theorem apply_writes_cons (iv : Nat × Size) (L : List (Nat × Size)) (ws : Store) :
    apply_writes (iv :: L) ws = apply_writes L (upd ws iv.1 ((ws iv.1).set_size iv.2)) := rfl

theorem apply_writes_append (L1 L2 : List (Nat × Size)) (ws : Store) :
    apply_writes (L1 ++ L2) ws = apply_writes L2 (apply_writes L1 ws) := by
  simp [apply_writes, List.foldl_append]

theorem immut_eq_upd_set_size (ws : Store) (i : Nat) (wg : Widget) (s : Size)
    (hk : wg.kind = (ws i).kind) (hm : wg.min_size = (ws i).min_size) :
    immut_eq ws (upd ws i (wg.set_size s)) := by
  intro j
  by_cases h : j = i
  · subst h; simp [hk, hm]
  · simp [upd, h]

theorem immut_eq_apply_writes (L : List (Nat × Size)) (ws : Store) :
    immut_eq ws (apply_writes L ws) := by
  induction L generalizing ws with
  | nil => exact immut_eq_refl ws
  | cons iv rest ih =>
    rw [apply_writes_cons]
    exact immut_eq_trans (immut_eq_upd_set_size ws iv.1 (ws iv.1) iv.2 rfl rfl) (ih _)

/-- Last write to an id in a write list, scanning front to back. -/
def last_write : List (Nat × Size) → Nat → Option Size
  | [], _ => none
  | iv :: rest, j =>
    match last_write rest j with
    | some v => some v
    | none => if iv.1 = j then some iv.2 else none

theorem apply_writes_get (L : List (Nat × Size)) (ws : Store) (j : Nat) :
    apply_writes L ws j =
      match last_write L j with
      | none => ws j
      | some v => (ws j).set_size v := by
  induction L generalizing ws with
  | nil => simp [last_write]
  | cons iv rest ih =>
    rw [apply_writes_cons, ih]
    rcases h : last_write rest j with _ | v
    · simp only [last_write, h]
      by_cases hj : iv.1 = j
      · subst hj; simp [upd]
      · have : j ≠ iv.1 := fun hc => hj hc.symm
        simp [upd, this, hj]
    · simp only [last_write, h]
      by_cases hj : j = iv.1
      · subst hj; simp [upd]
      · simp [upd, hj]

theorem apply_writes_idem (L : List (Nat × Size)) (ws : Store) :
    apply_writes L (apply_writes L ws) = apply_writes L ws := by
  funext j
  rw [apply_writes_get, apply_writes_get L ws j]
  rcases h : last_write L j with _ | v
  · simp
  · simp

mutual

/-- Phase 1 as a pure computation: the size a node computes together with
the ordered list of `set_size` writes the run performs; reads only the
kind/min_size view of the store. -/
def calc_pure : Nat → WidgetNode → Store → Option (Size × List (Nat × Size))
  | 0, _, _ => none
  | fuel + 1, .mk i lay ch, ws =>
    if ch.isEmpty then
      some ((ws i).min_size, [(i, (ws i).min_size)])
    else
      match lay with
      | none => none
      | some d =>
        match calc_pure_kids fuel d.orient d.spacing ch d.subnodes d.padding 0 ws with
        | none => none
        | some (L, needL, needC) =>
          let size := d.orient.real_size (needL + d.padding - d.spacing) (needC + 2 * d.padding)
          some (size, L ++ [(i, size)])

/-- The subnode loop of `calc_pure`. -/
def calc_pure_kids : Nat → Orient → ℚ → List WidgetNode → List Nat → ℚ → ℚ → Store →
    Option (List (Nat × Size) × ℚ × ℚ)
  | 0, _, _, _, _, _, _, _ => none
  | _ + 1, _, _, _, [], accL, accC, _ => some ([], accL, accC)
  | fuel + 1, o, sp, ch, sn :: rest, accL, accC, ws =>
    match ch[sn]? with
    | none => none
    | some c =>
      match calc_pure fuel c ws with
      | none => none
      | some (size, L1) =>
        let accL1 := accL + o.len size
        let accC1 := if o.cross size > accC then o.cross size else accC
        let accL2 := if o.sized_length (ws c.id) then accL1 + sp else accL1
        match calc_pure_kids fuel o sp ch rest accL2 accC1 ws with
        | none => none
        | some (L2, aL, aC) => some (L1 ++ L2, aL, aC)

end

theorem calc_pure_immut_aux : ∀ fuel : Nat,
    (∀ (n : WidgetNode) (ws1 ws2 : Store), immut_eq ws1 ws2 →
      calc_pure fuel n ws1 = calc_pure fuel n ws2) ∧
    (∀ (o : Orient) (sp : ℚ) (ch : List WidgetNode) (sns : List Nat) (accL accC : ℚ)
      (ws1 ws2 : Store), immut_eq ws1 ws2 →
      calc_pure_kids fuel o sp ch sns accL accC ws1 = calc_pure_kids fuel o sp ch sns accL accC ws2) := by
  intro fuel
  induction fuel with
  | zero =>
    constructor
    · intro n ws1 ws2 _; rfl
    · intro o sp ch sns accL accC ws1 ws2 _; rfl
  | succ fuel ih =>
    constructor
    · intro n ws1 ws2 h
      obtain ⟨i, lay, ch⟩ := n
      simp only [calc_pure]
      rw [(h i).2]
      rcases lay with _ | d
      · rfl
      · dsimp only
        rw [ih.2 d.orient d.spacing ch d.subnodes d.padding 0 ws1 ws2 h]
    · intro o sp ch sns accL accC ws1 ws2 h
      cases sns with
      | nil => rfl
      | cons sn rest =>
        simp only [calc_pure_kids]
        rcases hc : ch[sn]? with _ | c
        · rfl
        · simp only [hc]
          rw [ih.1 c ws1 ws2 h,
            sized_length_congr o (ws1 c.id) (ws2 c.id) (h c.id).1 (h c.id).2]
          rcases calc_pure fuel c ws2 with _ | ⟨size, L1⟩
          · rfl
          · dsimp only
            rw [ih.2 o sp ch rest _ _ ws1 ws2 h]

theorem calc_pure_immut (fuel : Nat) (n : WidgetNode) (ws1 ws2 : Store)
    (h : immut_eq ws1 ws2) : calc_pure fuel n ws1 = calc_pure fuel n ws2 :=
  (calc_pure_immut_aux fuel).1 n ws1 ws2 h

theorem calc_eq_pure_aux : ∀ fuel : Nat,
    (∀ (n : WidgetNode) (ws : Store),
      calc_widget_sizes fuel n ws = (calc_pure fuel n ws).map (fun p => (apply_writes p.2 ws, p.1))) ∧
    (∀ (o : Orient) (sp : ℚ) (ch : List WidgetNode) (sns : List Nat) (accL accC : ℚ) (ws : Store),
      calc_size_kids fuel o sp ch sns accL accC ws =
        (calc_pure_kids fuel o sp ch sns accL accC ws).map (fun t => (apply_writes t.1 ws, t.2))) := by
  intro fuel
  induction fuel with
  | zero =>
    constructor
    · intro n ws; rfl
    · intro o sp ch sns accL accC ws; rfl
  | succ fuel ih =>
    constructor
    · intro n ws
      obtain ⟨i, lay, ch⟩ := n
      simp only [calc_widget_sizes, calc_pure]
      by_cases hch : ch.isEmpty
      · simp [hch, apply_writes_cons]
      · simp only [hch, if_false, Bool.false_eq_true]
        rcases lay with _ | d
        · rfl
        · dsimp only
          rw [ih.2 d.orient d.spacing ch d.subnodes d.padding 0 ws]
          rcases calc_pure_kids fuel d.orient d.spacing ch d.subnodes d.padding 0 ws
            with _ | ⟨L, needL, needC⟩
          · rfl
          · simp [apply_writes_append, apply_writes_cons]
    · intro o sp ch sns accL accC ws
      cases sns with
      | nil => rfl
      | cons sn rest =>
        simp only [calc_size_kids, calc_pure_kids]
        rcases hc : ch[sn]? with _ | c
        · rfl
        · simp only [hc]
          rw [ih.1 c ws]
          rcases hcp : calc_pure fuel c ws with _ | ⟨size, L1⟩
          · rfl
          · have himm : immut_eq ws (apply_writes L1 ws) := immut_eq_apply_writes L1 ws
            have hsz : o.sized_length (apply_writes L1 ws c.id) = o.sized_length (ws c.id) :=
              sized_length_congr o _ _ ((himm c.id).1.symm) ((himm c.id).2.symm)
            have hkids : ∀ aL aC : ℚ, calc_size_kids fuel o sp ch rest aL aC (apply_writes L1 ws) =
                (calc_pure_kids fuel o sp ch rest aL aC ws).map
                  (fun t => (apply_writes t.1 (apply_writes L1 ws), t.2)) := by
              intro aL aC
              rw [ih.2 o sp ch rest aL aC (apply_writes L1 ws),
                (calc_pure_immut_aux fuel).2 o sp ch rest aL aC (apply_writes L1 ws) ws
                  (fun j => ⟨(himm j).1.symm, (himm j).2.symm⟩)]
            simp only [Option.map_some']
            simp only [hsz, hkids]
            rcases calc_pure_kids fuel o sp ch rest _ _ ws with _ | ⟨L2, aL, aC⟩
            · rfl
            · simp [apply_writes_append]

theorem calc_eq_pure (fuel : Nat) (n : WidgetNode) (ws : Store) :
    calc_widget_sizes fuel n ws = (calc_pure fuel n ws).map (fun p => (apply_writes p.2 ws, p.1)) :=
  (calc_eq_pure_aux fuel).1 n ws

theorem calc_preserves_immut (fuel : Nat) (n : WidgetNode) (ws ws1 : Store) (s : Size)
    (h : calc_widget_sizes fuel n ws = some (ws1, s)) : immut_eq ws ws1 := by
  rw [calc_eq_pure] at h
  rcases hp : calc_pure fuel n ws with _ | ⟨sz, L⟩
  · rw [hp] at h; exact absurd h (by simp)
  · rw [hp] at h
    simp only [Option.map_some'] at h
    obtain ⟨h1, -⟩ := Prod.mk.injEq .. ▸ Option.some.injEq .. ▸ h
    exact h1 ▸ immut_eq_apply_writes L ws

/-- Phase-1 idempotence: a successful bottom-up size computation, re-run on
its own output store with no tree change in between, reports the same size
and leaves the store exactly as it was. -/
theorem calc_widget_sizes_idem (fuel : Nat) (n : WidgetNode) (ws ws1 : Store) (s : Size)
    (h : calc_widget_sizes fuel n ws = some (ws1, s)) :
    calc_widget_sizes fuel n ws1 = some (ws1, s) := by
  have hpure := h
  rw [calc_eq_pure] at hpure
  rcases hp : calc_pure fuel n ws with _ | ⟨sz, L⟩
  · rw [hp] at hpure; exact absurd hpure (by simp)
  · rw [hp] at hpure
    simp only [Option.map_some', Option.some.injEq, Prod.mk.injEq] at hpure
    obtain ⟨hws, hs⟩ := hpure
    have himm : immut_eq ws ws1 := hws ▸ immut_eq_apply_writes L ws
    rw [calc_eq_pure, calc_pure_immut fuel n ws1 ws (fun j => ⟨(himm j).1.symm, (himm j).2.symm⟩),
      hp]
    simp only [Option.map_some', Option.some.injEq, Prod.mk.injEq]
    subst hws
    exact ⟨apply_writes_idem L ws, hs⟩

theorem calc_pure_mono_aux : ∀ fuel : Nat,
    (∀ (n : WidgetNode) (ws : Store) (r : Size × List (Nat × Size)),
      calc_pure fuel n ws = some r → calc_pure (fuel + 1) n ws = some r) ∧
    (∀ (o : Orient) (sp : ℚ) (ch : List WidgetNode) (sns : List Nat) (accL accC : ℚ)
      (ws : Store) (r : List (Nat × Size) × ℚ × ℚ),
      calc_pure_kids fuel o sp ch sns accL accC ws = some r →
      calc_pure_kids (fuel + 1) o sp ch sns accL accC ws = some r) := by
  intro fuel
  induction fuel with
  | zero =>
    constructor
    · intro n ws r h; simp [calc_pure] at h
    · intro o sp ch sns accL accC ws r h; simp [calc_pure_kids] at h
  | succ fuel ih =>
    constructor
    · intro n ws r h
      obtain ⟨i, lay, ch⟩ := n
      simp only [calc_pure] at h ⊢
      by_cases hch : ch.isEmpty
      · simpa [hch] using h
      · simp only [hch, if_false, Bool.false_eq_true] at h ⊢
        rcases lay with _ | d
        · exact h
        · dsimp only at h ⊢
          rcases hk : calc_pure_kids fuel d.orient d.spacing ch d.subnodes d.padding 0 ws
            with _ | ⟨L, needL, needC⟩
          · rw [hk] at h; simp at h
          · rw [hk] at h
            rw [ih.2 d.orient d.spacing ch d.subnodes d.padding 0 ws _ hk]
            exact h
    · intro o sp ch sns accL accC ws r h
      cases sns with
      | nil => simpa [calc_pure_kids] using h
      | cons sn rest =>
        simp only [calc_pure_kids] at h ⊢
        rcases hc : ch[sn]? with _ | c
        · simp [hc] at h
        · rw [hc] at h
          dsimp only at h ⊢
          rcases hcp : calc_pure fuel c ws with _ | ⟨size, L1⟩
          · rw [hcp] at h; simp at h
          · rw [hcp] at h
            rw [ih.1 c ws _ hcp]
            dsimp only at h ⊢
            rcases hk : calc_pure_kids fuel o sp ch rest _ _ ws with _ | ⟨L2, aL, aC⟩
            · rw [hk] at h; simp at h
            · rw [hk] at h
              rw [ih.2 o sp ch rest _ _ ws _ hk]
              exact h

theorem calc_pure_mono {f1 f2 : Nat} (hle : f1 ≤ f2) (n : WidgetNode) (ws : Store)
    (r : Size × List (Nat × Size)) (h : calc_pure f1 n ws = some r) :
    calc_pure f2 n ws = some r := by
  induction f2 with
  | zero =>
    have h0 : f1 = 0 := Nat.le_zero.mp hle
    subst h0
    simp [calc_pure] at h
  | succ f2 ih =>
    rcases Nat.lt_or_ge f1 (f2 + 1) with hlt | hge
    · exact (calc_pure_mono_aux f2).1 n ws r (ih (by omega))
    · have heq : f1 = f2 + 1 := le_antisymm hle hge
      exact heq ▸ h

theorem calc_pure_det {f1 f2 : Nat} (n : WidgetNode) (ws : Store)
    (r1 r2 : Size × List (Nat × Size)) (h1 : calc_pure f1 n ws = some r1)
    (h2 : calc_pure f2 n ws = some r2) : r1 = r2 := by
  have e1 := calc_pure_mono (Nat.le_max_left f1 f2) n ws r1 h1
  have e2 := calc_pure_mono (Nat.le_max_right f1 f2) n ws r2 h2
  rw [e1] at e2
  exact (Option.some.injEq .. ▸ e2)

@[simp] theorem real_size_len (o : Orient) (a b : ℚ) : o.len (o.real_size a b) = a := by
  cases o <;> rfl

@[simp] theorem real_size_cross (o : Orient) (a b : ℚ) : o.cross (o.real_size a b) = b := by
  cases o <;> rfl

theorem if_gt_eq_max (a c : ℚ) : (if c > a then c else a) = max a c := by
  rcases le_or_lt c a with h | h
  · simp [not_lt_of_le h, max_eq_left h]
  · simp [h, max_eq_right (le_of_lt h)]

theorem foldl_max_bounds (l : List ℚ) (a : ℚ) :
    a ≤ l.foldl max a ∧ ∀ x ∈ l, x ≤ l.foldl max a := by
  induction l generalizing a with
  | nil => simp
  | cons y t ih =>
    simp only [List.foldl_cons]
    obtain ⟨h1, h2⟩ := ih (max a y)
    refine ⟨le_trans (le_max_left a y) h1, ?_⟩
    intro x hx
    rcases List.mem_cons.mp hx with hx | hx
    · subst hx; exact le_trans (le_max_right _ _) h1
    · exact h2 x hx

theorem foldl_max_mem (l : List ℚ) (a : ℚ) : l.foldl max a = a ∨ l.foldl max a ∈ l := by
  induction l generalizing a with
  | nil => simp
  | cons y t ih =>
    rcases ih (max a y) with h | h
    · rcases max_cases a y with ⟨he, -⟩ | ⟨he, -⟩
      · exact Or.inl (by simpa [he] using h)
      · exact Or.inr (by simp [List.foldl_cons]; rw [h, he]; simp)
    · exact Or.inr (List.mem_cons.mpr (Or.inr (by simpa using h)))

/-- Run of the subnode loop of phase 1, characterized: the final length
accumulator adds every child's computed length plus one spacing per
length-sized child, and the cross accumulator is the running maximum of
the children's computed cross sizes. -/
theorem calc_pure_kids_formula :
    ∀ (fuel : Nat) (o : Orient) (sp : ℚ) (ch : List WidgetNode) (sns : List Nat)
      (accL accC : ℚ) (ws : Store) (L : List (Nat × Size)) (aL aC : ℚ),
      calc_pure_kids fuel o sp ch sns accL accC ws = some (L, aL, aC) →
      ∃ szs : List Size,
        List.Forall₂ (fun sn sz => ∃ c Lc, ch[sn]? = some c ∧
          ∃ fl, calc_pure fl c ws = some (sz, Lc)) sns szs ∧
        aL = accL + (szs.map o.len).sum +
          sp * ((sns.filter (fun sn => o.sized_length (ws (nodeAt ch sn).id))).length : ℚ) ∧
        aC = (szs.map o.cross).foldl max accC := by
  intro fuel
  induction fuel with
  | zero => intro o sp ch sns accL accC ws L aL aC h; simp [calc_pure_kids] at h
  | succ fuel ih =>
    intro o sp ch sns accL accC ws L aL aC h
    cases sns with
    | nil =>
      simp only [calc_pure_kids, Option.some.injEq, Prod.mk.injEq] at h
      exact ⟨[], List.Forall₂.nil, by simp [h.2.1.symm], by simp [h.2.2.symm]⟩
    | cons sn rest =>
      simp only [calc_pure_kids] at h
      rcases hc : ch[sn]? with _ | c
      · rw [hc] at h; simp at h
      · rw [hc] at h
        dsimp only at h
        rcases hcp : calc_pure fuel c ws with _ | ⟨size, L1⟩
        · rw [hcp] at h; simp at h
        · rw [hcp] at h
          dsimp only at h
          rcases hk : calc_pure_kids fuel o sp ch rest
              (if o.sized_length (ws c.id) = true then accL + o.len size + sp else accL + o.len size)
              (if o.cross size > accC then o.cross size else accC) ws with _ | ⟨L2, aL2, aC2⟩
          · rw [hk] at h; simp at h
          · rw [hk] at h
            simp only [Option.some.injEq, Prod.mk.injEq] at h
            obtain ⟨-, haL, haC⟩ := h
            obtain ⟨szs, hfa, hsum, hmax⟩ := ih o sp ch rest _ _ ws L2 aL2 aC2 hk
            refine ⟨size :: szs, List.Forall₂.cons ⟨c, L1, hc, fuel, hcp⟩ hfa, ?_, ?_⟩
            · rw [← haL, hsum]
              have hcid : nodeAt ch sn = c := by
                simp [nodeAt, List.getD, List.get?_eq_getElem?, hc]
              by_cases hsz : o.sized_length (ws c.id) = true
              · simp [List.filter_cons, hcid, hsz]
                ring
              · simp only [Bool.not_eq_true] at hsz
                simp [List.filter_cons, hcid, hsz]
                ring
            · rw [← haC, hmax]
              simp [if_gt_eq_max]

theorem calc_widget_sizes_to_pure (fuel : Nat) (n : WidgetNode) (ws out : Store) (s : Size)
    (h : calc_widget_sizes fuel n ws = some (out, s)) :
    ∃ L, calc_pure fuel n ws = some (s, L) ∧ out = apply_writes L ws := by
  rw [calc_eq_pure] at h
  rcases hp : calc_pure fuel n ws with _ | ⟨sz, L⟩
  · rw [hp] at h; simp at h
  · rw [hp] at h
    simp only [Option.map_some', Option.some.injEq, Prod.mk.injEq] at h
    exact ⟨L, by rw [h.2], h.1.symm⟩

theorem forall2_sizes_unique (ch : List WidgetNode) (ws : Store) (sns : List Nat)
    (szs1 szs2 : List Size)
    (h1 : List.Forall₂ (fun sn sz => ∃ c Lc, ch[sn]? = some c ∧
      ∃ fl, calc_pure fl c ws = some (sz, Lc)) sns szs1)
    (h2 : List.Forall₂ (fun sn sz => ∃ c fl wsc, ch[sn]? = some c ∧
      calc_widget_sizes fl c ws = some (wsc, sz)) sns szs2) :
    szs1 = szs2 := by
  induction h1 generalizing szs2 with
  | nil => cases h2; rfl
  | cons hR hFa ih =>
    cases h2 with
    | cons hR2 hFa2 =>
      obtain ⟨c, Lc, hc, fl, hp⟩ := hR
      obtain ⟨c2, fl2, wsc, hc2, hcw⟩ := hR2
      rw [hc] at hc2
      have hcc := Option.some.inj hc2
      subst hcc
      obtain ⟨L2, hp2, -⟩ := calc_widget_sizes_to_pure fl2 c ws wsc _ hcw
      have hdet := calc_pure_det c ws _ _ hp hp2
      have hb : (Prod.fst (α := Size) (β := List (Nat × Size))) _ = _ := congrArg Prod.fst hdet
      simp only [Prod.fst] at hb
      rw [ih _ hFa2]
      exact congrArg (fun z => z :: _) hb

/-- Phase-1 aggregation formula for a container (amended gap counting):
with the children's computed sizes `szs` listed in subnode order, the
computed length-axis extent is `2 * padding` plus the sum of the computed
lengths plus `spacing * (k - 1)` in exact rational arithmetic, where `k`
counts the subnode children the source treats as length-sized
(`sized_width`/`sized_height`: nonzero minimum, with LayoutWidget children
always counted as sized); and the cross-axis extent is `2 * padding` plus
the maximum of the children's computed cross sizes (all nonnegative). -/
theorem do_calc_size_formula (fuel i : Nat) (d : StackLayoutData) (ch : List WidgetNode)
    (ws out : Store) (s : Size) (szs : List Size)
    (hch : ch ≠ [])
    (h : calc_widget_sizes fuel (.mk i (some d) ch) ws = some (out, s))
    (hszs : List.Forall₂ (fun sn sz => ∃ c fl wsc, ch[sn]? = some c ∧
      calc_widget_sizes fl c ws = some (wsc, sz)) d.subnodes szs)
    (hne : szs ≠ [])
    (hpos : ∀ sz ∈ szs, 0 ≤ d.orient.cross sz) :
    d.orient.len s = 2 * d.padding + (szs.map d.orient.len).sum +
      d.spacing *
        (((d.subnodes.filter (fun sn =>
          d.orient.sized_length (ws (nodeAt ch sn).id))).length : ℚ) - 1) ∧
    (∀ sz ∈ szs, d.orient.cross sz + 2 * d.padding ≤ d.orient.cross s) ∧
    (∃ sz ∈ szs, d.orient.cross s = d.orient.cross sz + 2 * d.padding) := by
  obtain ⟨L, hp, -⟩ := calc_widget_sizes_to_pure fuel _ ws out s h
  cases fuel with
  | zero => simp [calc_pure] at hp
  | succ fuel =>
    rw [calc_pure] at hp
    have hemp : ch.isEmpty = false := by
      cases ch
      · exact absurd rfl hch
      · rfl
    simp only [hemp, Bool.false_eq_true, if_false] at hp
    rcases hk : calc_pure_kids fuel d.orient d.spacing ch d.subnodes d.padding 0 ws
      with _ | ⟨L1, aL, aC⟩
    · rw [hk] at hp; simp at hp
    · rw [hk] at hp
      simp only [Option.some.injEq, Prod.mk.injEq] at hp
      obtain ⟨hs, -⟩ := hp
      obtain ⟨szs0, hfa0, hsum, hmax⟩ :=
        calc_pure_kids_formula fuel d.orient d.spacing ch d.subnodes d.padding 0 ws L1 aL aC hk
      have hss : szs = szs0 := (forall2_sizes_unique ch ws d.subnodes szs0 szs hfa0 hszs).symm
      subst hss
      refine ⟨?_, ?_, ?_⟩
      · rw [← hs, real_size_len, hsum]; ring
      · intro sz hsz
        rw [← hs, real_size_cross, hmax]
        have := (foldl_max_bounds (szs.map d.orient.cross) 0).2 (d.orient.cross sz)
          (List.mem_map_of_mem d.orient.cross hsz)
        linarith
      · rw [← hs, real_size_cross, hmax]
        rcases foldl_max_mem (szs.map d.orient.cross) 0 with h0 | hmem
        · obtain ⟨sz0, hsz0⟩ := List.exists_mem_of_ne_nil szs hne
          refine ⟨sz0, hsz0, ?_⟩
          have hle := (foldl_max_bounds (szs.map d.orient.cross) 0).2 (d.orient.cross sz0)
            (List.mem_map_of_mem d.orient.cross hsz0)
          have hge := hpos sz0 hsz0
          rw [h0] at hle ⊢
          linarith
        · obtain ⟨sz0, hsz0, heq⟩ := List.mem_map.mp hmem
          exact ⟨sz0, hsz0, by rw [heq]⟩

/-- UI::do_layout: detect expandables, compute phase-1 sizes, keep the
root's previous size whenever it exceeds the computed size in either
dimension, apply phase 2 from the origin, and finally overwrite the root's
layout with position (0,0) and the chosen size. -/
def do_layout (fuel : Nat) (root : WidgetNode) (ws : Store) : Option Store :=
  let orig_size := (ws 0).size
  match detect_expandables root ws with
  | none => none
  | some (ws1, _, _) =>
    match calc_widget_sizes fuel root ws1 with
    | none => none
    | some (ws2, _) =>
      let size := (ws2 0).size
      let new_size := if orig_size.w > size.w ∨ orig_size.h > size.h then orig_size else size
      let ws3 := upd ws2 0 ((ws2 0).set_size new_size)
      match apply_sizes fuel root ⟨0, 0⟩ ws3 with
      | none => none
      | some ws4 => some (upd ws4 0 ((ws4 0).set_layout ⟨⟨0, 0⟩, new_size⟩))

/-- Plain user widget fixture with the given minimum size and
expandability flags, freshly registered geometry. -/
def plain_widget (ms : Size) (wexp hexp : Bool) : Widget :=
  ⟨.plain, ms, wexp, hexp, false, false, false, ⟨⟨0, 0⟩, ⟨0, 0⟩⟩, false, false, false, true⟩

/-- Spacer fixture (zero minimum size), as Spacer::new builds it. -/
def spacer_widget (wexp hexp : Bool) : Widget :=
  ⟨.spacer, ⟨0, 0⟩, wexp, hexp, false, false, false, ⟨⟨0, 0⟩, ⟨0, 0⟩⟩, false, false, false, true⟩

/-- LayoutWidget fixture, as LayoutWidget::default builds it. -/
def layout_widget : Widget :=
  ⟨.layoutWidget, ⟨0, 0⟩, false, false, false, false, false, ⟨⟨0, 0⟩, ⟨0, 0⟩⟩, false, false,
    false, true⟩

/-- Store for the gap-counting counterexample: widget 1 is a fixed 23 by 42
plain widget, widget 2 is an (empty) nested container's LayoutWidget with
zero minimum size. -/
def gap_cex_store : Store := fun i =>
  if i = 1 then plain_widget ⟨23, 42⟩ false false
  else if i = 2 then layout_widget
  else plain_widget ⟨0, 0⟩ false false

/-- Horizontal stack (padding 0, spacing 5) with the fixed widget and the
empty nested container as its two packed children. -/
def gap_cex_node : WidgetNode :=
  .mk 0 (some ⟨.horizontal, 0, 5, [0, 1]⟩)
    [.mk 1 none [], .mk 2 (some ⟨.vertical, 0, 5, []⟩) []]

/-- Counterexample to gap counting as claimed: the container computes width
28 (it charges a spacing gap after the LayoutWidget child, whose
sized_width is overridden to true despite its zero minimum width), while
exactly one child has a nonzero length-axis minimum, so the claimed
formula `2 * padding + sum of child lengths + spacing * (k - 1)` yields
`2 * 0 + (23 + 0) + 5 * (1 - 1) = 23 ≠ 28`. -/
theorem gap_counting_cex :
    (calc_widget_sizes 5 gap_cex_node gap_cex_store).map (fun p => p.2.w) = some 28 ∧
    (gap_cex_node.children.filter
      (fun c => decide (0 < (gap_cex_store c.id).min_size.w))).length = 1 ∧
    (28 : ℚ) ≠ 2 * 0 + (23 + 0) + 5 * ((1 : ℚ) - 1) := by
  refine ⟨?_, ?_, by norm_num⟩
  · norm_num [calc_widget_sizes, calc_size_kids, gap_cex_node, gap_cex_store, nodeAt,
      plain_widget, layout_widget, Orient.real_size, Orient.len, Orient.cross,
      Orient.sized_length, Widget.sized_width, Widget.sized_height, upd]
  · norm_num [gap_cex_node, gap_cex_store, plain_widget, layout_widget, List.filter]

theorem do_calc_size_formula_witness :
    Orient.horizontal.len (⟨28, 42⟩ : Size) =
      2 * (0 : ℚ) + ([(⟨23, 42⟩ : Size), ⟨0, 0⟩].map Orient.horizontal.len).sum +
        5 * ((([0, 1].filter (fun sn =>
          Orient.horizontal.sized_length
            (gap_cex_store (nodeAt gap_cex_node.children sn).id))).length : ℚ) - 1) := by
  have hrun1 : calc_widget_sizes 1 (.mk 1 none []) gap_cex_store =
      some (upd gap_cex_store 1 ((gap_cex_store 1).set_size ⟨23, 42⟩), ⟨23, 42⟩) := by
    norm_num [calc_widget_sizes, gap_cex_store, plain_widget]
  have hrun2 : calc_widget_sizes 1 (.mk 2 (some ⟨.vertical, 0, 5, []⟩) []) gap_cex_store =
      some (upd gap_cex_store 2 ((gap_cex_store 2).set_size ⟨0, 0⟩), ⟨0, 0⟩) := by
    norm_num [calc_widget_sizes, gap_cex_store, layout_widget]
  have hm : (calc_widget_sizes 5 gap_cex_node gap_cex_store).map Prod.snd = some ⟨28, 42⟩ := by
    norm_num [calc_widget_sizes, calc_size_kids, gap_cex_node, gap_cex_store, nodeAt,
      plain_widget, layout_widget, Orient.real_size, Orient.len, Orient.cross,
      Orient.sized_length, Widget.sized_width, Widget.sized_height, upd]
  obtain ⟨p, hp, hsnd⟩ := Option.map_eq_some'.mp hm
  obtain ⟨out, s⟩ := p
  obtain rfl : s = ⟨28, 42⟩ := hsnd
  have hszs : List.Forall₂ (fun sn sz => ∃ c fl wsc, gap_cex_node.children[sn]? = some c ∧
      calc_widget_sizes fl c gap_cex_store = some (wsc, sz)) [0, 1] [⟨23, 42⟩, ⟨0, 0⟩] := by
    refine List.Forall₂.cons ⟨.mk 1 none [], 1, _, rfl, hrun1⟩ ?_
    exact List.Forall₂.cons ⟨.mk 2 (some ⟨.vertical, 0, 5, []⟩) [], 1, _, rfl, hrun2⟩
      List.Forall₂.nil
  exact (do_calc_size_formula 5 0 ⟨.horizontal, 0, 5, [0, 1]⟩ gap_cex_node.children
    gap_cex_store out ⟨28, 42⟩ [⟨23, 42⟩, ⟨0, 0⟩] (by simp [gap_cex_node]) hp hszs
    (by simp) (by norm_num [Orient.cross])).1

theorem calc_widget_sizes_idem_witness :
    (calc_widget_sizes 5 gap_cex_node gap_cex_store).isSome = true ∧
    (calc_widget_sizes 5 gap_cex_node gap_cex_store).bind
        (fun p => calc_widget_sizes 5 gap_cex_node p.1) =
      calc_widget_sizes 5 gap_cex_node gap_cex_store := by
  constructor
  · norm_num [calc_widget_sizes, calc_size_kids, gap_cex_node, gap_cex_store, nodeAt,
      plain_widget, layout_widget, Orient.real_size, Orient.len, Orient.cross,
      Orient.sized_length, Widget.sized_width, Widget.sized_height, upd]
  · rcases hr : calc_widget_sizes 5 gap_cex_node gap_cex_store with _ | ⟨ws1, s⟩
    · rfl
    · exact calc_widget_sizes_idem 5 gap_cex_node gap_cex_store ws1 s hr

theorem calc_root_size (fuel : Nat) (n : WidgetNode) (ws ws1 : Store) (s : Size)
    (h : calc_widget_sizes fuel n ws = some (ws1, s)) : (ws1 n.id).size = s := by
  cases fuel with
  | zero => simp [calc_widget_sizes] at h
  | succ fuel =>
    obtain ⟨i, lay, ch⟩ := n
    simp only [calc_widget_sizes] at h
    by_cases hch : ch.isEmpty
    · simp only [hch, if_true] at h
      obtain ⟨h1, h2⟩ := Prod.mk.injEq .. ▸ Option.some.injEq .. ▸ h
      rw [← h1, ← h2]
      simp
    · simp only [hch, Bool.false_eq_true, if_false] at h
      rcases lay with _ | d
      · simp at h
      · dsimp only at h
        rcases hk : calc_size_kids fuel d.orient d.spacing ch d.subnodes d.padding 0 ws
          with _ | ⟨wsk, needL, needC⟩
        · rw [hk] at h; simp at h
        · rw [hk] at h
          obtain ⟨h1, h2⟩ := Prod.mk.injEq .. ▸ Option.some.injEq .. ▸ h
          rw [← h1, ← h2]
          simp

/-- Root-size selection of do_layout: with the root node holding widget 0,
whenever the pre-layout width exceeds the computed content width or the
pre-layout height exceeds the computed content height, the root widget
ends the layout pass with its entire pre-layout size in both dimensions;
otherwise it ends with the computed content size.  Its position is reset
to the origin either way. -/
theorem do_layout_root_size (fuel : Nat) (root : WidgetNode) (ws out : Store)
    (hroot : root.id = 0)
    (h : do_layout fuel root ws = some out) :
    ∃ (wsd wsc : Store) (eflags : Bool × Bool) (s : Size),
      detect_expandables root ws = some (wsd, eflags) ∧
      calc_widget_sizes fuel root wsd = some (wsc, s) ∧
      (out 0).layout =
        ⟨⟨0, 0⟩, if (ws 0).size.w > s.w ∨ (ws 0).size.h > s.h then (ws 0).size else s⟩ := by
  rw [do_layout] at h
  rcases hd : detect_expandables root ws with _ | ⟨wsd, eflags⟩
  · rw [hd] at h; simp at h
  · rw [hd] at h
    dsimp only at h
    rcases hc : calc_widget_sizes fuel root wsd with _ | ⟨wsc, s⟩
    · rw [hc] at h; simp at h
    · rw [hc] at h
      dsimp only at h
      have hsz : (wsc 0).size = s := hroot ▸ calc_root_size fuel root wsd wsc s hc
      rcases ha : apply_sizes fuel root ⟨0, 0⟩
          (upd wsc 0 ((wsc 0).set_size
            (if (ws 0).size.w > (wsc 0).size.w ∨ (ws 0).size.h > (wsc 0).size.h
              then (ws 0).size else (wsc 0).size))) with _ | ws4
      · rw [ha] at h; simp at h
      · rw [ha] at h
        simp only [Option.some.injEq] at h
        refine ⟨wsd, wsc, eflags, s, rfl, hc, ?_⟩
        rw [← h]
        simp [Widget.set_layout, hsz]

theorem do_layout_root_size_witness :
    (do_layout 5 gap_cex_node gap_cex_store).map (fun o => (o 0).layout) =
      some ⟨⟨0, 0⟩, ⟨28, 42⟩⟩ := by
  rcases hr : do_layout 5 gap_cex_node gap_cex_store with _ | out
  · exact absurd hr (by
      simp +decide [do_layout, detect_expandables, detect_kids, calc_widget_sizes, calc_size_kids,
        apply_sizes, apply_positions, apply_cross, expand_spacers, expand_expandable_widgets,
        count_spacers, count_expandables, expandable_length, usize_sub_one, gap_cex_node,
        gap_cex_store, nodeAt, plain_widget, layout_widget, Orient.real_size, Orient.len,
        Orient.cross, Orient.sized_length, Orient.length_expandable, Orient.set_cross,
        Orient.expand_length, Orient.len_cross_pos, Orient.real_coord, Widget.sized_width,
        Widget.sized_height, upd])
  · obtain ⟨wsd, wsc, eflags, s, hd, hc, hl⟩ :=
      do_layout_root_size 5 gap_cex_node gap_cex_store out rfl hr
    have hd0 : detect_expandables gap_cex_node gap_cex_store =
        some (gap_cex_store, false, false) := by
      norm_num [detect_expandables, detect_kids, gap_cex_node, gap_cex_store, plain_widget,
        layout_widget]
    rw [hd0] at hd
    obtain ⟨hwsd, -⟩ := Prod.mk.injEq .. ▸ Option.some.injEq .. ▸ hd
    subst hwsd
    have hm : (calc_widget_sizes 5 gap_cex_node gap_cex_store).map Prod.snd =
        some ⟨28, 42⟩ := by
      norm_num [calc_widget_sizes, calc_size_kids, gap_cex_node, gap_cex_store, nodeAt,
        plain_widget, layout_widget, Orient.real_size, Orient.len, Orient.cross,
        Orient.sized_length, Widget.sized_width, Widget.sized_height, upd]
    rw [hc] at hm
    simp only [Option.map_some', Option.some.injEq] at hm
    simp only [Option.map_some', Option.some.injEq]
    rw [hl, hm]
    norm_num [gap_cex_store, plain_widget, Widget.size]

/-- Loop body of UI::focus_next_widget: advance the candidate index,
wrapping to 0 when it reaches the widget count, and stop at the first
candidate that takes focus or equals the currently focused index.  The
registry is abstracted to the list of the widgets' takes_focus flags
(takes_focus is an immutable property of each widget; the set_focus flag
toggles the source performs afterwards do not feed back into the scan).
The source's loop is unbounded; it is run here on explicit fuel, and
`focus_next_widget_terminates` shows one full cycle of fuel suffices. -/
def focus_scan (takes : List Bool) (focused : Nat) : Nat → Nat → Option Nat
  | 0, _ => none
  | fuel + 1, fw =>
    let fw1 := fw + 1
    let fw2 := if fw1 = takes.length then 0 else fw1
    if takes.getD fw2 false = true ∨ fw2 = focused then some fw2
    else focus_scan takes focused fuel fw2

/-- UI::focus_next_widget at the level of the focused index: run the scan
loop starting from the focused index with one full cycle of fuel. -/
def focus_next_widget (takes : List Bool) (focused : Nat) : Option Nat :=
  focus_scan takes focused takes.length focused

/-- Modelled from the spec: the cyclic scan order over widget identities
starting just after `focused`, one full cycle. -/
def scan_order (len focused : Nat) : List Nat :=
  (List.range len).map (fun k => (focused + 1 + k) % len)

/-- Modelled from the spec: the first widget in cyclic order after the
focus whose takes_focus flag is set, the focused widget itself when there
is none. -/
def cyclic_next (takes : List Bool) (focused : Nat) : Nat :=
  match (scan_order takes.length focused).find? (fun j => takes.getD j false) with
  | some j => j
  | none => focused

/-- Cyclic distance from `fw` forward to `focused`, never zero for indices
below `len`; the scan reaches `focused` after exactly this many steps. -/
def cyc_dist (len focused fw : Nat) : Nat :=
  if fw < focused then focused - fw else focused + len - fw

theorem wrap_eq_mod (len fw : Nat) (h : fw < len) :
    (if fw + 1 = len then 0 else fw + 1) = (fw + 1) % len := by
  by_cases he : fw + 1 = len
  · simp [he, Nat.mod_self]
  · rw [if_neg he, Nat.mod_eq_of_lt (by omega)]

theorem focus_scan_eq_find (takes : List Bool) (focused : Nat) :
    ∀ (d fuel fw : Nat), fw < takes.length → focused < takes.length →
    d = cyc_dist takes.length focused fw → d ≤ fuel →
    focus_scan takes focused fuel fw =
      ((List.range d).map (fun k => (fw + 1 + k) % takes.length)).find?
        (fun j => takes.getD j false || j == focused) := by
  intro d
  induction d with
  | zero =>
    intro fuel fw hfw hfoc hd _
    exfalso
    rw [cyc_dist] at hd
    by_cases hc : fw < focused <;> simp [hc] at hd <;> omega
  | succ d ih =>
    intro fuel fw hfw hfoc hd hfuel
    obtain ⟨fuel, rfl⟩ : ∃ f, fuel = f + 1 := ⟨fuel - 1, by omega⟩
    rw [focus_scan]
    have hw := wrap_eq_mod takes.length fw hfw
    have hfw1 : (fw + 1) % takes.length < takes.length := Nat.mod_lt _ (by omega)
    rw [List.range_succ_eq_map, List.map_cons, List.map_map, List.find?_cons]
    simp only [Function.comp_def, Nat.add_zero]
    rw [hw]
    by_cases hp : takes.getD ((fw + 1) % takes.length) false = true ∨
        (fw + 1) % takes.length = focused
    · rw [if_pos hp]
      have hb : (takes.getD ((fw + 1) % takes.length) false ||
          ((fw + 1) % takes.length == focused)) = true := by
        rcases hp with hp | hp <;> simp [← List.getD_eq_getElem?_getD, hp]
      rw [hb]
    · rw [if_neg hp]
      have hb : (takes.getD ((fw + 1) % takes.length) false ||
          ((fw + 1) % takes.length == focused)) = false := by
        push_neg at hp
        simp [← List.getD_eq_getElem?_getD, Bool.not_eq_true] at hp ⊢
        exact hp
      rw [hb]
      have hne : (fw + 1) % takes.length ≠ focused := by
        intro hcon
        exact absurd (Or.inr hcon) hp
      have hdist : d = cyc_dist takes.length focused ((fw + 1) % takes.length) := by
        rw [cyc_dist] at hd ⊢
        by_cases hfl : fw + 1 = takes.length
        · have h0 : (fw + 1) % takes.length = 0 := by simp [hfl, Nat.mod_self]
          rw [h0]
          have hne0 : focused ≠ 0 := by rw [h0] at hne; exact fun hcc => hne hcc.symm
          by_cases hc : fw < focused <;> simp only [hc, if_true, if_false] at hd <;>
            by_cases hc2 : 0 < focused <;> simp only [hc2, if_true, if_false] <;> omega
        · have h1 : (fw + 1) % takes.length = fw + 1 := Nat.mod_eq_of_lt (by omega)
          rw [h1]
          rw [h1] at hne
          by_cases hc : fw < focused <;> simp only [hc, if_true, if_false] at hd <;>
            by_cases hc2 : fw + 1 < focused <;> simp only [hc2, if_true, if_false] <;> omega
      rw [ih fuel ((fw + 1) % takes.length) hfw1 hfoc hdist (by omega)]
      congr 1
      apply List.map_congr_left
      intro k _
      have hassoc : (fw + 1) % takes.length + 1 + k = (fw + 1) % takes.length + (1 + k) := by
        omega
      rw [hassoc, Nat.mod_add_mod]
      congr 1
      omega

theorem find_or_last (p : Nat → Bool) :
    ∀ (l : List Nat) (e : Nat), (∀ x ∈ l.dropLast, x ≠ e) → l.getLast? = some e →
    l.find? (fun j => p j || j == e) = some ((l.find? p).getD e) := by
  intro l
  induction l with
  | nil => intro e _ hlast; simp at hlast
  | cons x t ih =>
    intro e hdrop hlast
    cases t with
    | nil =>
      have hx : x = e := by simpa using hlast
      subst hx
      by_cases hp : p x = true <;> simp [List.find?, hp]
    | cons y t2 =>
      have hx : x ≠ e := hdrop x (by simp [List.dropLast])
      have hbx : (x == e) = false := by simp [hx]
      by_cases hp : p x = true
      · simp [List.find?, hp, hbx]
      · have hp2 : p x = false := by simpa using hp
        have l1 : (x :: y :: t2).find? (fun j => p j || j == e) =
            (y :: t2).find? (fun j => p j || j == e) := by
          rw [List.find?_cons]
          simp [hp2, hbx]
        have l2 : (x :: y :: t2).find? p = (y :: t2).find? p := by
          rw [List.find?_cons]
          simp [hp2]
        rw [l1, l2]
        exact ih e (fun z hz => hdrop z (by simp [List.dropLast, hz]))
          (by rwa [List.getLast?_cons_cons] at hlast)

theorem scan_order_split (len focused : Nat) (hlen : 0 < len) :
    ∃ m, len = m + 1 ∧
      scan_order len focused =
        ((List.range m).map (fun k => (focused + 1 + k) % len)) ++ [(focused + 1 + m) % len] := by
  obtain ⟨m, rfl⟩ : ∃ m, len = m + 1 := ⟨len - 1, by omega⟩
  exact ⟨m, rfl, by rw [scan_order, List.range_succ, List.map_append, List.map_singleton]⟩

theorem scan_order_last_eq (len focused : Nat) (hf : focused < len) :
    (focused + 1 + (len - 1)) % len = focused := by
  have h1 : focused + 1 + (len - 1) = focused + len := by omega
  rw [h1, Nat.add_mod_right, Nat.mod_eq_of_lt hf]

theorem scan_order_early_ne (len focused k : Nat) (hf : focused < len) (hk : k < len - 1) :
    (focused + 1 + k) % len ≠ focused := by
  intro hcon
  rcases Nat.lt_or_ge (focused + 1 + k) len with hlt | hge
  · rw [Nat.mod_eq_of_lt hlt] at hcon; omega
  · rw [Nat.mod_eq_sub_mod hge, Nat.mod_eq_of_lt (by omega)] at hcon; omega

theorem scan_find_eq_cyclic_next (takes : List Bool) (focused : Nat)
    (hf : focused < takes.length) :
    (scan_order takes.length focused).find?
        (fun j => takes.getD j false || j == focused) =
      some (cyclic_next takes focused) := by
  obtain ⟨m, hm, hsplit⟩ := scan_order_split takes.length focused (by omega)
  have hlast : (scan_order takes.length focused).getLast? = some focused := by
    rw [hsplit, List.getLast?_concat]
    have : (focused + 1 + m) % takes.length = focused := by
      have := scan_order_last_eq takes.length focused hf
      rw [hm] at this ⊢
      simpa using this
    rw [this]
  have hdrop : ∀ x ∈ (scan_order takes.length focused).dropLast, x ≠ focused := by
    rw [hsplit, List.dropLast_concat]
    intro x hx
    obtain ⟨k, hk, rfl⟩ := List.mem_map.mp hx
    exact scan_order_early_ne takes.length focused k hf (by rw [hm]; simpa using List.mem_range.mp hk)
  rw [find_or_last (fun j => takes.getD j false) (scan_order takes.length focused) focused
    hdrop hlast]
  rw [cyclic_next]
  rcases hfind : (scan_order takes.length focused).find? (fun j => takes.getD j false)
    with _ | j <;> simp

theorem cyc_dist_self (len focused : Nat) (hf : focused < len) :
    cyc_dist len focused focused = len := by
  rw [cyc_dist, if_neg (lt_irrefl focused)]
  omega

/-- Focus advance: the scan stops exactly at the first widget in cyclic
identity order after the focused one whose takes_focus flag is set,
wrapping around, and stays on the focused widget when no other focusable
widget exists. -/
theorem focus_next_widget_spec (takes : List Bool) (focused : Nat)
    (hf : focused < takes.length) :
    focus_next_widget takes focused = some (cyclic_next takes focused) := by
  rw [focus_next_widget,
    focus_scan_eq_find takes focused takes.length takes.length focused hf hf
      (cyc_dist_self takes.length focused hf).symm (le_refl _)]
  exact scan_find_eq_cyclic_next takes focused hf

/-- The registry of the focus-cycling example: the root widget and W1 do
not take focus; W2 and W3 (ids 2 and 3) do. -/
def demo_takes : List Bool := [false, false, true, true]

/-- One focus-advance call on the example registry. -/
def demo_focus_step (f : Nat) : Nat := (focus_next_widget demo_takes f).getD f

/-- Focused widget after m focus-advance calls starting from the root. -/
def demo_focus_seq (m : Nat) : Nat := demo_focus_step^[m] 0

/-- Focus cycling: a focus-advance call lands on the first takes_focus
widget in cyclic identity order just after the current focus (the focus
stays put when no other focusable widget exists), and on the example
registry root, W1 (not focusable), W2, W3 (focusable) the advance calls
visit W2, W3, W2, W3, ... and never W1. -/
theorem focus_next_widget_cycles :
    (∀ (takes : List Bool) (focused : Nat), focused < takes.length →
      focus_next_widget takes focused = some (cyclic_next takes focused)) ∧
    (∀ m : Nat, demo_focus_seq (m + 1) = if m % 2 = 0 then 2 else 3) ∧
    (∀ m : Nat, demo_focus_seq (m + 1) ≠ 1) := by
  have hseq : ∀ m : Nat, demo_focus_seq (m + 1) = if m % 2 = 0 then 2 else 3 := by
    intro m
    induction m with
    | zero => decide
    | succ m ihm =>
      have hstep : demo_focus_seq (m + 1 + 1) = demo_focus_step (demo_focus_seq (m + 1)) := by
        rw [demo_focus_seq, demo_focus_seq, Function.iterate_succ_apply']
      rw [hstep, ihm]
      by_cases hpar : m % 2 = 0
      · have : (m + 1) % 2 ≠ 0 := by omega
        simp only [hpar, if_true, this, if_false]
        decide
      · have : (m + 1) % 2 = 0 := by omega
        simp only [hpar, if_false, this, if_true]
        decide
  refine ⟨focus_next_widget_spec, hseq, ?_⟩
  intro m
  rw [hseq m]
  by_cases hpar : m % 2 = 0 <;> simp [hpar]

theorem focus_next_widget_cycles_witness :
    focus_next_widget demo_takes 0 = some 2 ∧
    demo_focus_seq 1 = 2 ∧ demo_focus_seq 2 = 3 ∧ demo_focus_seq 3 = 2 ∧
    demo_focus_seq 3 ≠ 1 := by
  have h := focus_next_widget_cycles
  refine ⟨?_, ?_, ?_, ?_, h.2.2 2⟩
  · rw [h.1 demo_takes 0 (by decide)]; decide
  · simpa using h.2.1 0
  · simpa using h.2.1 1
  · simpa using h.2.1 2

/-- Focus-advance termination: on any registry (nonempty widget list,
valid focused index) the scan, given one full cycle of fuel, reaches a
stopping candidate: a takes_focus widget or the original focused index. -/
theorem focus_next_widget_terminates (takes : List Bool) (focused : Nat)
    (hne : takes ≠ []) (hf : focused < takes.length) :
    ∃ r, focus_next_widget takes focused = some r ∧
      (takes.getD r false = true ∨ r = focused) := by
  refine ⟨cyclic_next takes focused, focus_next_widget_spec takes focused hf, ?_⟩
  rw [cyclic_next]
  rcases hfind : (scan_order takes.length focused).find? (fun j => takes.getD j false)
    with _ | j
  · exact Or.inr rfl
  · exact Or.inl (by simpa using List.find?_some hfind)

theorem focus_next_widget_terminates_witness :
    (focus_next_widget demo_takes 0).isSome = true := by
  obtain ⟨r, hr, -⟩ := focus_next_widget_terminates demo_takes 0 (by decide) (by decide)
  rw [hr]
  rfl

/-- StackDirection (stacklayout.rs): pack before the front or behind the
back of a stack layouter's ordering. -/
inductive StackDirection where
  | front
  | back
deriving DecidableEq

/-- StackLayoutData::pack: record a child slot index at the requested edge
of the subnode deque. -/
def sld_pack (d : StackLayoutData) (subnode_id : Nat) (target : StackDirection) :
    StackLayoutData :=
  match target with
  | .back => { d with subnodes := d.subnodes ++ [subnode_id] }
  | .front => { d with subnodes := subnode_id :: d.subnodes }

mutual

/-- WidgetNode::search: depth-first path (child indices) from this node to
the node holding widget `tid`. -/
def search_path : WidgetNode → Nat → Option (List Nat)
  | .mk i _ ch, tid => if i = tid then some [] else search_kids ch tid 0

/-- The child loop of WidgetNode::search. -/
def search_kids : List WidgetNode → Nat → Nat → Option (List Nat)
  | [], _, _ => none
  | c :: rest, tid, k =>
    match search_path c tid with
    | some p => some (k :: p)
    | none => search_kids rest tid (k + 1)

end

/-- WidgetNode::get_node_by_path, reading: the node a path leads to. -/
def node_at_path : WidgetNode → List Nat → Option WidgetNode
  | n, [] => some n
  | .mk _ _ ch, k :: rest =>
    match ch[k]? with
    | none => none
    | some c => node_at_path c rest

/-- WidgetNode::get_node_by_path combined with the mutation pack_to_layout
performs on the node it reaches. -/
def modify_at_path (f : WidgetNode → Option WidgetNode) :
    WidgetNode → List Nat → Option WidgetNode
  | n, [] => f n
  | .mk i lay ch, k :: rest =>
    match ch[k]? with
    | none => none
    | some c =>
      match modify_at_path f c rest with
      | none => none
      | some c2 => some (.mk i lay (ch.set k c2))

/-- WidgetNode::pack: find the child slot holding widget `widget` (silent
return when absent), then ask the node's layouter (the source's panic when
it is missing, or when the `downcast` to the expected layouter type
fails, i.e. the orientation disagrees) to record the slot index. -/
def node_pack (n : WidgetNode) (widget : Nat) (expected : Orient)
    (target : StackDirection) : Option WidgetNode :=
  match n with
  | .mk i lay ch =>
    match ch.findIdx? (fun c => c.id == widget) with
    | none => some n
    | some subnode_id =>
      match lay with
      | none => none
      | some d =>
        if d.orient = expected then some (.mk i (some (sld_pack d subnode_id target)) ch)
        else none

/-- The parts of the UI state that pack_to_layout touches: the widget tree
and the pending (unlayouted) node table. -/
structure PackState where
  root_widget_node : WidgetNode
  unlayouted_nodes : List (Nat × WidgetNode)

/-- HashMap::get on the pending table. -/
def ul_lookup (l : List (Nat × WidgetNode)) (id : Nat) : Option WidgetNode :=
  (l.find? (fun p => p.1 == id)).map (fun p => p.2)

/-- HashMap::remove on the pending table. -/
def ul_remove (l : List (Nat × WidgetNode)) (id : Nat) : List (Nat × WidgetNode) :=
  l.filter (fun p => !(p.1 == id))

/-- In-place mutation of the pending table entry find_node returned. -/
def ul_set (l : List (Nat × WidgetNode)) (id : Nat) (n : WidgetNode) :
    List (Nat × WidgetNode) :=
  l.map (fun p => if p.1 = id then (id, n) else p)

/-- UI::pack_to_layout: take the child's node out of the pending table
(the source's `expect` panic when it is absent), locate the parent node
(pending table first, else a tree search whose failure falls back to the
root node), push the child node onto the parent's child list, and pack its
slot index into the parent's layouter. -/
def pack_to_layout (st : PackState) (id parent_id : Nat) (expected : Orient)
    (target : StackDirection) : Option PackState :=
  match ul_lookup st.unlayouted_nodes id with
  | none => none
  | some new_node =>
    let unl := ul_remove st.unlayouted_nodes id
    let g : WidgetNode → Option WidgetNode := fun node =>
      node_pack (.mk node.id node.layouter (node.children ++ [new_node])) id expected target
    match ul_lookup unl parent_id with
    | some pnode =>
      match g pnode with
      | none => none
      | some pnode2 => some ⟨st.root_widget_node, ul_set unl parent_id pnode2⟩
    | none =>
      let path :=
        match search_path st.root_widget_node parent_id with
        | some p => p
        | none => []
      match modify_at_path g st.root_widget_node path with
      | none => none
      | some root2 => some ⟨root2, unl⟩

theorem modify_at_path_spec (f : WidgetNode → Option WidgetNode) :
    ∀ (p : List Nat) (root n : WidgetNode), node_at_path root p = some n →
      (f n = none → modify_at_path f root p = none) ∧
      (∀ n2, f n = some n2 → ∃ root2, modify_at_path f root p = some root2 ∧
        node_at_path root2 p = some n2) := by
  intro p
  induction p with
  | nil =>
    intro root n hn
    obtain rfl : root = n := by simpa [node_at_path] using hn
    constructor
    · intro hf; simpa [modify_at_path] using hf
    · intro n2 hf
      exact ⟨n2, by simpa [modify_at_path] using hf, by simp [node_at_path]⟩
  | cons k rest ih =>
    intro root n hn
    obtain ⟨i, lay, ch⟩ := root
    rw [node_at_path] at hn
    rcases hc : ch[k]? with _ | c
    · rw [hc] at hn; simp at hn
    · rw [hc] at hn
      dsimp only at hn
      obtain ⟨hnone, hsome⟩ := ih c n hn
      have hk : k < ch.length := (List.getElem?_eq_some_iff.mp hc).1
      constructor
      · intro hf
        simp only [modify_at_path, hc]
        rw [hnone hf]
      · intro n2 hf
        obtain ⟨c2, hm, hat⟩ := hsome n2 hf
        refine ⟨.mk i lay (ch.set k c2), ?_, ?_⟩
        · simp only [modify_at_path, hc]
          rw [hm]
        · rw [node_at_path, List.getElem?_set_eq_of_lt c2 (by simpa using hk)]
          exact hat

theorem findIdx_append_last_aux (chp : List WidgetNode) (pn : WidgetNode) (id : Nat)
    (hpn : pn.id = id) (hfresh : ∀ c ∈ chp, c.id ≠ id) :
    ∀ i, List.findIdx? (fun c => c.id == id) (chp ++ [pn]) i = some (chp.length + i) := by
  induction chp with
  | nil => intro i; simp [List.findIdx?, hpn]
  | cons c rest ihc =>
    intro i
    have hc : (c.id == id) = false := by simp [hfresh c (by simp)]
    rw [List.cons_append]
    simp only [List.findIdx?, hc]
    rw [ihc (fun z hz => hfresh z (by simp [hz])) (i + 1)]
    simp
    omega

theorem findIdx_append_last (chp : List WidgetNode) (pn : WidgetNode) (id : Nat)
    (hpn : pn.id = id) (hfresh : ∀ c ∈ chp, c.id ≠ id) :
    (chp ++ [pn]).findIdx? (fun c => c.id == id) = some chp.length := by
  have h := findIdx_append_last_aux chp pn id hpn hfresh 0
  simpa using h

theorem node_pack_appended (pi : Nat) (play : Option StackLayoutData)
    (pch : List WidgetNode) (new_node : WidgetNode) (id : Nat)
    (expected : Orient) (target : StackDirection)
    (hnid : new_node.id = id) (hfresh : ∀ c ∈ pch, c.id ≠ id) :
    node_pack (.mk pi play (pch ++ [new_node])) id expected target =
      match play with
      | none => none
      | some d =>
        if d.orient = expected then
          some (.mk pi (some (sld_pack d pch.length target)) (pch ++ [new_node]))
        else none := by
  rw [node_pack]
  rw [findIdx_append_last pch new_node id hnid hfresh]

/-- The mutation pack_to_layout applies to the parent node it located. -/
def pack_mut (new_node : WidgetNode) (id : Nat) (expected : Orient)
    (target : StackDirection) : WidgetNode → Option WidgetNode :=
  fun node =>
    node_pack (.mk node.id node.layouter (node.children ++ [new_node])) id
      expected target

theorem pack_to_layout_eq (st : PackState) (id parent_id : Nat)
    (expected : Orient) (target : StackDirection) :
    pack_to_layout st id parent_id expected target =
      match ul_lookup st.unlayouted_nodes id with
      | none => none
      | some new_node =>
        let unl := ul_remove st.unlayouted_nodes id
        match ul_lookup unl parent_id with
        | some pnode =>
          match pack_mut new_node id expected target pnode with
          | none => none
          | some pnode2 => some ⟨st.root_widget_node, ul_set unl parent_id pnode2⟩
        | none =>
          let path :=
            match search_path st.root_widget_node parent_id with
            | some p => p
            | none => []
          match modify_at_path (pack_mut new_node id expected target)
              st.root_widget_node path with
          | none => none
          | some root2 => some ⟨root2, unl⟩ := by
  rw [pack_to_layout]
  rfl

/-- C7: pack_to_layout panics (modelled as returning none) when the widget
to attach is not in the pending table, and panics when the designated parent
node has no layouter; on success the child's node is removed from the
pending table and appended to the parent node's child list, and its slot
index is recorded at the requested front or back edge of the layouter's
subnode ordering. -/
theorem pack_to_layout_spec (st : PackState) (id parent_id : Nat)
    (expected : Orient) (target : StackDirection) :
    (ul_lookup st.unlayouted_nodes id = none →
      pack_to_layout st id parent_id expected target = none) ∧
    (∀ new_node p pn,
      ul_lookup st.unlayouted_nodes id = some new_node →
      new_node.id = id →
      ul_lookup (ul_remove st.unlayouted_nodes id) parent_id = none →
      search_path st.root_widget_node parent_id = some p →
      node_at_path st.root_widget_node p = some pn →
      (∀ c ∈ pn.children, c.id ≠ id) →
      pn.layouter = none →
      pack_to_layout st id parent_id expected target = none) ∧
    (∀ new_node p pn d,
      ul_lookup st.unlayouted_nodes id = some new_node →
      new_node.id = id →
      ul_lookup (ul_remove st.unlayouted_nodes id) parent_id = none →
      search_path st.root_widget_node parent_id = some p →
      node_at_path st.root_widget_node p = some pn →
      (∀ c ∈ pn.children, c.id ≠ id) →
      pn.layouter = some d →
      d.orient = expected →
      ∃ root2, pack_to_layout st id parent_id expected target =
          some ⟨root2, ul_remove st.unlayouted_nodes id⟩ ∧
        node_at_path root2 p =
          some (WidgetNode.mk pn.id (some (sld_pack d pn.children.length target))
            (pn.children ++ [new_node]))) := by
  refine ⟨?_, ?_, ?_⟩
  · intro h
    rw [pack_to_layout_eq, h]
  · intro new_node p pn hlk hnid hplk hsearch hat hfresh hlay
    have hg : pack_mut new_node id expected target pn = none := by
      obtain ⟨pi, play, pch⟩ := pn
      simp only [WidgetNode.layouter_mk] at hlay
      simp only [WidgetNode.children_mk] at hfresh
      simp only [pack_mut, WidgetNode.id_mk, WidgetNode.layouter_mk,
        WidgetNode.children_mk]
      rw [node_pack_appended pi play pch new_node id expected target hnid hfresh]
      rw [hlay]
    have hmod := (modify_at_path_spec (pack_mut new_node id expected target)
      p st.root_widget_node pn hat).1 hg
    rw [pack_to_layout_eq, hlk]
    dsimp only
    rw [hplk, hsearch]
    dsimp only
    rw [hmod]
  · intro new_node p pn d hlk hnid hplk hsearch hat hfresh hlay horient
    have hg : pack_mut new_node id expected target pn =
        some (WidgetNode.mk pn.id (some (sld_pack d pn.children.length target))
          (pn.children ++ [new_node])) := by
      obtain ⟨pi, play, pch⟩ := pn
      simp only [WidgetNode.layouter_mk] at hlay
      simp only [WidgetNode.children_mk] at hfresh
      simp only [pack_mut, WidgetNode.id_mk, WidgetNode.layouter_mk,
        WidgetNode.children_mk]
      rw [node_pack_appended pi play pch new_node id expected target hnid hfresh]
      rw [hlay]
      dsimp only
      rw [if_pos horient]
    obtain ⟨root2, hmod, hat2⟩ := (modify_at_path_spec
      (pack_mut new_node id expected target) p st.root_widget_node pn hat).2 _ hg
    refine ⟨root2, ?_, hat2⟩
    rw [pack_to_layout_eq, hlk]
    dsimp only
    rw [hplk, hsearch]
    dsimp only
    rw [hmod]

/-- Fixture for packing: a root with one container child (id 5), and a leaf
node (id 7) waiting in the pending table. -/
def pw_state : PackState :=
  ⟨.mk 0 (some ⟨.horizontal, 0, 0, []⟩) [.mk 5 (some ⟨.vertical, 0, 0, []⟩) []],
   [(7, .mk 7 none [])]⟩

theorem pack_to_layout_spec_witness :
    ∃ root2,
      pack_to_layout pw_state 7 5 Orient.vertical StackDirection.back =
        some ⟨root2, []⟩ ∧
      node_at_path root2 [0] =
        some (WidgetNode.mk 5 (some ⟨Orient.vertical, 0, 0, [0]⟩)
          [WidgetNode.mk 7 none []]) := by
  obtain ⟨root2, h1, h2⟩ :=
    (pack_to_layout_spec pw_state 7 5 Orient.vertical StackDirection.back).2.2
      (WidgetNode.mk 7 none []) [0]
      (WidgetNode.mk 5 (some ⟨Orient.vertical, 0, 0, []⟩) [])
      ⟨Orient.vertical, 0, 0, []⟩
      rfl rfl rfl rfl rfl (by simp) rfl rfl
  exact ⟨root2, h1, h2⟩

/-- Modelled from the spec: the mouse button carried by a button event
(pugl MouseButton), identified by its number; the primary button is 1. -/
structure MouseBtn where
  num : Nat
deriving DecidableEq

/-- Modelled from the spec: the discriminant of an input event
(pugl EventType), with key payloads reduced to key codes. -/
inductive EventType where
  | keyPress (key : Nat)
  | keyRelease (key : Nat)
  | mouseButtonPress (btn : MouseBtn)
  | mouseButtonRelease (btn : MouseBtn)
  | pointerIn
  | pointerOut
  | other
deriving DecidableEq

/-- Modelled from the spec: an input event (pugl Event), reduced to its
discriminant and its position. -/
structure Event where
  data : EventType
  pos : Coord
deriving DecidableEq

/-- Modelled from the spec: Event::scale_pos multiplies the event position
by a factor. -/
def Event.scale_pos (ev : Event) (s : ℚ) : Event :=
  { ev with pos := ⟨ev.pos.x * s, ev.pos.y * s⟩ }

/-- One observable action of the event router: an event handed to a
widget's event method, or a pointer-enter/pointer-leave wrap call. -/
inductive Delivery where
  | deliver (id : Nat) (ev : Event)
  | enter (id : Nat)
  | leave (id : Nat)
deriving DecidableEq

/-- The fields of UI that UI::event reads and writes. -/
structure RouterState where
  widgets : Store
  root_widget_node : WidgetNode
  drag_ongoing : Bool
  widget_under_pointer : Nat
  focused_widget : Nat
  scale_factor : ℚ

/-- Widget::pointer_enter_wrap: set hovered and ask for a repaint —
except that LayoutWidget overrides the wrap with a no-op. -/
def pointer_enter_wrap (ws : Store) (i : Nat) : Store :=
  if (ws i).kind == WKind.layoutWidget then ws
  else upd ws i { ws i with hovered := true, needs_repaint := true }

/-- Widget::pointer_leave_wrap: clear hovered and ask for a repaint —
except that LayoutWidget overrides the wrap with a no-op. -/
def pointer_leave_wrap (ws : Store) (i : Nat) : Store :=
  if (ws i).kind == WKind.layoutWidget then ws
  else upd ws i { ws i with hovered := false, needs_repaint := true }

mutual

/-- UI::event_path: the chain of widget ids from the root down to the
deepest widget hit by the position. -/
def ui_event_path : Store → WidgetNode → Coord → List Nat → List Nat
  | ws, .mk i _ ch, pos, path => ui_event_path_kids ws ch pos (path ++ [i])

/-- The child loop of UI::event_path: descend into the first child whose
widget is hit by the position. -/
def ui_event_path_kids : Store → List WidgetNode → Coord → List Nat → List Nat
  | _, [], _, path => path
  | ws, c :: rest, pos, path =>
    if (ws c.id).is_hit_by pos then ui_event_path ws c pos path
    else ui_event_path_kids ws rest pos path

end

/-- The bubbling loop at the end of UI::event: starting from the deepest
widget on the event path, hand the event to each widget in turn; a handler
returning none consumes the event and stops the loop. Handlers are
modelled by the oracle `behave` mapping a widget id and an event to the
event the handler passes on (none when it consumes it). -/
def bubble (behave : Nat → Event → Option Event) (st : RouterState) :
    List Nat → Event → List Delivery → RouterState × List Delivery
  | [], _, tr => (st, tr)
  | id :: rest, ev, tr =>
    match behave id ev with
    | some ev2 => bubble behave st rest ev2 (tr ++ [.deliver id ev])
    | none => (st, tr ++ [.deliver id ev])

/-- The hover bookkeeping of UI::event on the deepest widget of the event
path: enter/leave wraps when the widget under the pointer changes, and on
PointerIn/PointerOut events. -/
def hover_update (st : RouterState) (ev : Event) (id : Nat)
    (tr : List Delivery) : RouterState × List Delivery :=
  let (st, tr) :=
    if st.widget_under_pointer ≠ id then
      ({ st with
          widgets := pointer_enter_wrap
            (pointer_leave_wrap st.widgets st.widget_under_pointer) id,
          widget_under_pointer := id },
       tr ++ [.leave st.widget_under_pointer, .enter id])
    else (st, tr)
  let (st, tr) :=
    if ev.data = EventType.pointerIn then
      ({ st with
          widgets := pointer_enter_wrap st.widgets id,
          widget_under_pointer := id },
       tr ++ [.enter id])
    else (st, tr)
  if ev.data = EventType.pointerOut then
    ({ st with widgets := pointer_leave_wrap st.widgets st.widget_under_pointer },
     tr ++ [.leave st.widget_under_pointer])
  else (st, tr)

/-- The tail of UI::event shared by all non-consuming branches: compute the
event path by hit-testing, update the hover state against its last entry,
then bubble the event up the path. -/
def dispatch (behave : Nat → Event → Option Event) (st : RouterState)
    (ev : Event) (tr : List Delivery) : RouterState × List Delivery :=
  let path := ui_event_path st.widgets st.root_widget_node ev.pos []
  let p :=
    match path.getLast? with
    | none => (st, tr)
    | some id => hover_update st ev id tr
  bubble behave p.1 path.reverse ev p.2

/-- UI::event: scale the event position, offer the event to the root
widget, then branch on the event type — key events go to the
drag-recorded or focused widget, a primary button press starts a drag, a
primary button release during a drag ends it and goes to the recorded
widget under the pointer (with a pointer-leave wrap when the release
position is outside that widget), any other event during a drag goes to
the recorded widget — and otherwise fall through to hit-test dispatch. -/
def ui_event (behave : Nat → Event → Option Event) (st : RouterState)
    (ev0 : Event) : RouterState × List Delivery :=
  let ev1 := ev0.scale_pos (1 / st.scale_factor)
  match behave 0 ev1 with
  | none => (st, [.deliver 0 ev1])
  | some ev2 =>
    let tr : List Delivery := [.deliver 0 ev1]
    match ev2.data with
    | .keyPress _ | .keyRelease _ =>
      if st.drag_ongoing then
        (st, tr ++ [.deliver st.widget_under_pointer ev2])
      else
        match behave st.focused_widget ev2 with
        | some ev3 => dispatch behave st ev3 (tr ++ [.deliver st.focused_widget ev2])
        | none => (st, tr ++ [.deliver st.focused_widget ev2])
    | .mouseButtonPress btn =>
      if btn.num = 1 then
        dispatch behave { st with drag_ongoing := true } ev2 tr
      else
        dispatch behave st ev2 tr
    | .mouseButtonRelease btn =>
      if btn.num = 1 ∧ st.drag_ongoing = true then
        let st2 := { st with drag_ongoing := false }
        let wup := st2.widget_under_pointer
        let hit := (st2.widgets wup).is_hit_by ev2.pos
        let st3 :=
          if hit then st2
          else { st2 with widgets := pointer_leave_wrap st2.widgets wup }
        let tr2 := tr ++ [.deliver wup ev2] ++
          (if hit then ([] : List Delivery) else [.leave wup])
        match behave wup ev2 with
        | some ev3 => dispatch behave st3 ev3 tr2
        | none => (st3, tr2)
      else dispatch behave st ev2 tr
    | _ =>
      if st.drag_ongoing then
        (st, tr ++ [.deliver st.widget_under_pointer ev2])
      else dispatch behave st ev2 tr

theorem bubble_state (behave : Nat → Event → Option Event) (st : RouterState) :
    ∀ (l : List Nat) (ev : Event) (tr : List Delivery),
      (bubble behave st l ev tr).1 = st ∧
      ∃ r, (bubble behave st l ev tr).2 = tr ++ r := by
  intro l
  induction l with
  | nil => intro ev tr; exact ⟨rfl, [], by simp [bubble]⟩
  | cons id rest ih =>
    intro ev tr
    rw [bubble]
    rcases hb : behave id ev with _ | ev2
    · exact ⟨rfl, [.deliver id ev], rfl⟩
    · obtain ⟨h1, r, h2⟩ := ih ev2 (tr ++ [.deliver id ev])
      exact ⟨h1, [Delivery.deliver id ev] ++ r, by rw [h2, List.append_assoc]⟩

theorem hover_update_state (st : RouterState) (ev : Event) (id : Nat)
    (tr : List Delivery) :
    (hover_update st ev id tr).1.drag_ongoing = st.drag_ongoing ∧
    ∃ r, (hover_update st ev id tr).2 = tr ++ r := by
  simp only [hover_update]
  refine ⟨?_, ?_⟩
  · split <;> split <;> split <;> rfl
  · split <;> split <;> split
    all_goals exact ⟨_, by try simp [List.append_assoc]; try rfl⟩

theorem dispatch_state (behave : Nat → Event → Option Event)
    (st : RouterState) (ev : Event) (tr : List Delivery) :
    (dispatch behave st ev tr).1.drag_ongoing = st.drag_ongoing ∧
    ∃ r, (dispatch behave st ev tr).2 = tr ++ r := by
  simp only [dispatch]
  rcases hl : (ui_event_path st.widgets st.root_widget_node ev.pos []).getLast?
    with _ | id
  · obtain ⟨h1, r, h2⟩ := bubble_state behave st
      (ui_event_path st.widgets st.root_widget_node ev.pos []).reverse ev tr
    exact ⟨by rw [h1], r, h2⟩
  · obtain ⟨hh1, rh, hh2⟩ := hover_update_state st ev id tr
    obtain ⟨h1, r, h2⟩ := bubble_state behave (hover_update st ev id tr).1
      (ui_event_path st.widgets st.root_widget_node ev.pos []).reverse ev
      (hover_update st ev id tr).2
    exact ⟨by rw [h1, hh1], rh ++ r, by rw [h2, hh2, List.append_assoc]⟩

/-- C5: a primary-button mouse release while a drag is ongoing ends the
drag, and the delivery trace starts with the root offer followed
unconditionally — with no hit test — by a delivery to the widget recorded
as under the pointer when the drag started; exactly when the release
position is no longer inside that widget's rectangle, a pointer-leave wrap
on it follows immediately. -/
theorem mouse_release_drag (behave : Nat → Event → Option Event)
    (st : RouterState) (ev0 : Event) (btn : MouseBtn)
    (hdata : ev0.data = EventType.mouseButtonRelease btn)
    (hbtn : btn.num = 1)
    (hdrag : st.drag_ongoing = true)
    (hroot : behave 0 (ev0.scale_pos (1 / st.scale_factor)) =
      some (ev0.scale_pos (1 / st.scale_factor))) :
    ∃ rest,
      (ui_event behave st ev0).2 =
        [Delivery.deliver 0 (ev0.scale_pos (1 / st.scale_factor)),
         Delivery.deliver st.widget_under_pointer
           (ev0.scale_pos (1 / st.scale_factor))] ++
        (if (st.widgets st.widget_under_pointer).is_hit_by
            (ev0.scale_pos (1 / st.scale_factor)).pos
          then ([] : List Delivery)
          else [Delivery.leave st.widget_under_pointer]) ++ rest ∧
      (ui_event behave st ev0).1.drag_ongoing = false := by
  have hdata1 : (ev0.scale_pos (1 / st.scale_factor)).data =
      EventType.mouseButtonRelease btn := hdata
  rw [ui_event]
  dsimp only
  rw [hroot]
  dsimp only
  rw [hdata1]
  dsimp only
  rw [if_pos ⟨hbtn, hdrag⟩]
  rcases hb : behave st.widget_under_pointer (ev0.scale_pos (1 / st.scale_factor))
    with _ | ev3
  · dsimp only
    refine ⟨[], ?_, ?_⟩
    · simp
    · split <;> rfl
  · set evs := ev0.scale_pos (1 / st.scale_factor) with hevs
    set st2 : RouterState := { st with drag_ongoing := false } with hst2
    set st3 : RouterState :=
      if (st2.widgets st.widget_under_pointer).is_hit_by evs.pos then st2
      else { st2 with
        widgets := pointer_leave_wrap st2.widgets st.widget_under_pointer }
      with hst3
    obtain ⟨h1, r, h2⟩ := dispatch_state behave st3 ev3
      ([Delivery.deliver 0 evs] ++ [Delivery.deliver st.widget_under_pointer evs] ++
        (if (st2.widgets st.widget_under_pointer).is_hit_by evs.pos
          then ([] : List Delivery)
          else [Delivery.leave st.widget_under_pointer]))
    refine ⟨r, ?_, ?_⟩
    · rw [h2]
      simp
    · rw [h1, hst3]
      split <;> rfl

/-- Fixture for the event router: widget 3 covers the square from (0,0) to
(10,10); a drag is ongoing with widget 3 recorded under the pointer. -/
def c5_state : RouterState :=
  ⟨upd (fun _ => plain_widget ⟨0, 0⟩ false false) 3
      { plain_widget ⟨0, 0⟩ false false with
          layout := ⟨⟨0, 0⟩, ⟨10, 10⟩⟩ },
    .mk 0 none [], true, 3, 0, 1⟩

/-- A primary-button release at (50, 50), outside widget 3. -/
def c5_ev : Event := ⟨.mouseButtonRelease ⟨1⟩, ⟨50, 50⟩⟩

theorem mouse_release_drag_witness :
    ∃ rest,
      (ui_event (fun _ e => some e) c5_state c5_ev).2 =
        [Delivery.deliver 0 (c5_ev.scale_pos (1 / c5_state.scale_factor)),
         Delivery.deliver c5_state.widget_under_pointer
           (c5_ev.scale_pos (1 / c5_state.scale_factor))] ++
        (if (c5_state.widgets c5_state.widget_under_pointer).is_hit_by
            (c5_ev.scale_pos (1 / c5_state.scale_factor)).pos
          then ([] : List Delivery)
          else [Delivery.leave c5_state.widget_under_pointer]) ++ rest ∧
      (ui_event (fun _ e => some e) c5_state c5_ev).1.drag_ongoing = false :=
  mouse_release_drag (fun _ e => some e) c5_state c5_ev ⟨1⟩ rfl rfl rfl rfl

mutual

/-- All widget ids of a subtree, root first. -/
def node_ids : WidgetNode → List Nat
  | .mk i _ ch => i :: kids_ids ch

/-- All widget ids of a forest. -/
def kids_ids : List WidgetNode → List Nat
  | [] => []
  | c :: rest => node_ids c ++ kids_ids rest

end

theorem node_ids_def (n : WidgetNode) : node_ids n = n.id :: kids_ids n.children := by
  obtain ⟨i, lay, ch⟩ := n
  rw [node_ids]
  rfl

theorem mem_kids_ids (ch : List WidgetNode) (sn : Nat) (h : sn < ch.length) :
    ∀ x ∈ node_ids (nodeAt ch sn), x ∈ kids_ids ch := by
  induction ch generalizing sn with
  | nil => simp at h
  | cons c rest ih =>
    intro x hx
    rw [kids_ids]
    rcases sn with _ | sn
    · exact List.mem_append_left _ (by simpa [nodeAt, List.getD] using hx)
    · exact List.mem_append_right _
        (ih sn (by simpa using h) x (by simpa [nodeAt, List.getD] using hx))

theorem foldl_step_frame (step : Store → Nat → Store) (ch : List WidgetNode)
    (hstep : ∀ (ws : Store) (sn j : Nat), (nodeAt ch sn).id ≠ j → step ws sn j = ws j) :
    ∀ (sns : List Nat) (ws : Store) (j : Nat),
      (∀ sn ∈ sns, (nodeAt ch sn).id ≠ j) →
      sns.foldl step ws j = ws j := by
  intro sns
  induction sns with
  | nil => intro ws j h; rfl
  | cons sn rest ih =>
    intro ws j h
    rw [List.foldl_cons]
    rw [ih (step ws sn) j (fun s hs => h s (List.mem_cons_of_mem _ hs))]
    exact hstep ws sn j (h sn (List.mem_cons_self _ _))

theorem foldl_step_get (step : Store → Nat → Store) (v : Widget → Widget)
    (ch : List WidgetNode)
    (hval : ∀ (ws : Store) (sn : Nat), step ws sn (nodeAt ch sn).id = v (ws (nodeAt ch sn).id))
    (hframe : ∀ (ws : Store) (sn j : Nat), (nodeAt ch sn).id ≠ j → step ws sn j = ws j) :
    ∀ (sns : List Nat) (ws : Store),
      (sns.map (fun sn => (nodeAt ch sn).id)).Nodup →
      ∀ sn ∈ sns, sns.foldl step ws (nodeAt ch sn).id = v (ws (nodeAt ch sn).id) := by
  intro sns
  induction sns with
  | nil => intro ws h sn hsn; simp at hsn
  | cons s0 rest ih =>
    intro ws h sn hsn
    rw [List.foldl_cons]
    rw [List.map_cons, List.nodup_cons] at h
    rcases List.mem_cons.mp hsn with rfl | hsn2
    · rw [foldl_step_frame step ch hframe rest (step ws sn) _ ?_]
      · exact hval ws sn
      · intro s hs heq
        exact h.1 (heq ▸ List.mem_map_of_mem _ hs)
    · have hne : (nodeAt ch s0).id ≠ (nodeAt ch sn).id := by
        intro heq
        exact h.1 (heq ▸ List.mem_map_of_mem _ hsn2)
      rw [ih (step ws s0) h.2 sn hsn2]
      rw [hframe ws s0 _ hne]

theorem apply_cross_frame (o : Orient) (pad : ℚ) (sa : Size) (ch : List WidgetNode)
    (sns : List Nat) (ws : Store) (j : Nat)
    (h : ∀ sn ∈ sns, (nodeAt ch sn).id ≠ j) :
    apply_cross o pad sa ch sns ws j = ws j := by
  simp only [apply_cross]
  exact foldl_step_frame _ ch (fun ws sn j hne => upd_ne _ _ _ _ (Ne.symm hne)) sns ws j h

theorem apply_cross_get (o : Orient) (pad : ℚ) (sa : Size) (ch : List WidgetNode)
    (sns : List Nat) (ws : Store)
    (hidn : (sns.map (fun sn => (nodeAt ch sn).id)).Nodup) :
    ∀ sn ∈ sns, apply_cross o pad sa ch sns ws (nodeAt ch sn).id =
      o.set_cross (ws (nodeAt ch sn).id) (o.cross sa - 2 * pad) := by
  simp only [apply_cross]
  exact foldl_step_get _ (fun w => o.set_cross w (o.cross sa - 2 * pad)) ch
    (fun ws sn => upd_same _ _ _)
    (fun ws sn j hne => upd_ne _ _ _ _ (Ne.symm hne)) sns ws hidn

theorem spacer_fold_frame (o : Orient) (E : ℚ) (ch : List WidgetNode)
    (sns : List Nat) (ws : Store) (j : Nat)
    (h : ∀ sn ∈ sns, (nodeAt ch sn).id ≠ j) :
    sns.foldl (fun ws sn =>
      let cid := (nodeAt ch sn).id
      if (ws cid).kind == .spacer then upd ws cid (o.expand_length (ws cid) E) else ws)
      ws j = ws j := by
  refine foldl_step_frame _ ch ?_ sns ws j h
  intro ws sn j hne
  dsimp only
  split
  · exact upd_ne _ _ _ _ (Ne.symm hne)
  · rfl

theorem spacer_fold_get (o : Orient) (E : ℚ) (ch : List WidgetNode)
    (sns : List Nat) (ws : Store)
    (hidn : (sns.map (fun sn => (nodeAt ch sn).id)).Nodup) :
    ∀ sn ∈ sns, sns.foldl (fun ws sn =>
      let cid := (nodeAt ch sn).id
      if (ws cid).kind == .spacer then upd ws cid (o.expand_length (ws cid) E) else ws)
      ws (nodeAt ch sn).id =
      (if ((ws (nodeAt ch sn).id).kind == WKind.spacer) = true
        then o.expand_length (ws (nodeAt ch sn).id) E else ws (nodeAt ch sn).id) := by
  refine foldl_step_get _
    (fun w => if (w.kind == WKind.spacer) = true then o.expand_length w E else w) ch ?_ ?_
    sns ws hidn
  · intro ws sn
    dsimp only
    split
    · exact upd_same _ _ _
    · rfl
  · intro ws sn j hne
    dsimp only
    split
    · exact upd_ne _ _ _ _ (Ne.symm hne)
    · rfl

theorem expandable_fold_frame (o : Orient) (E : ℚ) (ch : List WidgetNode)
    (sns : List Nat) (ws : Store) (j : Nat)
    (h : ∀ sn ∈ sns, (nodeAt ch sn).id ≠ j) :
    sns.foldl (fun ws sn =>
      let cid := (nodeAt ch sn).id
      if (ws cid).kind == .spacer then ws else upd ws cid (o.expand_length (ws cid) E))
      ws j = ws j := by
  refine foldl_step_frame _ ch ?_ sns ws j h
  intro ws sn j hne
  dsimp only
  split
  · rfl
  · exact upd_ne _ _ _ _ (Ne.symm hne)

theorem expandable_fold_get (o : Orient) (E : ℚ) (ch : List WidgetNode)
    (sns : List Nat) (ws : Store)
    (hidn : (sns.map (fun sn => (nodeAt ch sn).id)).Nodup) :
    ∀ sn ∈ sns, sns.foldl (fun ws sn =>
      let cid := (nodeAt ch sn).id
      if (ws cid).kind == .spacer then ws else upd ws cid (o.expand_length (ws cid) E))
      ws (nodeAt ch sn).id =
      (if ((ws (nodeAt ch sn).id).kind == WKind.spacer) = true
        then ws (nodeAt ch sn).id else o.expand_length (ws (nodeAt ch sn).id) E) := by
  refine foldl_step_get _
    (fun w => if (w.kind == WKind.spacer) = true then w else o.expand_length w E) ch ?_ ?_
    sns ws hidn
  · intro ws sn
    dsimp only
    split
    · rfl
    · exact upd_same _ _ _
  · intro ws sn j hne
    dsimp only
    split
    · rfl
    · exact upd_ne _ _ _ _ (Ne.symm hne)

theorem expand_spacers_frame (o : Orient) (sp pad : ℚ) (sa : Size) (ch : List WidgetNode)
    (sns : List Nat) (ws : Store) (j : Nat)
    (h : ∀ sn ∈ sns, (nodeAt ch sn).id ≠ j) :
    (expand_spacers o sp pad sa ch sns ws).1 j = ws j := by
  rw [expand_spacers]
  dsimp only
  split
  · rfl
  · exact spacer_fold_frame o _ ch sns ws j h

theorem expand_expandable_frame (o : Orient) (sp pad : ℚ) (sa : Size) (ch : List WidgetNode)
    (sns : List Nat) (ws : Store) (j : Nat)
    (h : ∀ sn ∈ sns, (nodeAt ch sn).id ≠ j) :
    expand_expandable_widgets o sp pad sa ch sns ws j = ws j := by
  rw [expand_expandable_widgets]
  dsimp only
  split
  · rfl
  · exact expandable_fold_frame o _ ch sns ws j h

theorem apply_frame : ∀ fuel : Nat,
    (∀ (n : WidgetNode) (pos : Coord) (ws out : Store),
      apply_sizes fuel n pos ws = some out →
      ∀ j, j ∉ kids_ids n.children → out j = ws j) ∧
    (∀ (o : Orient) (pad sp cp : ℚ) (ch : List WidgetNode) (sns : List Nat)
        (lp sg : ℚ) (ws out : Store),
      apply_positions fuel o pad sp cp ch sns lp sg ws = some out →
      ∀ j, (∀ sn ∈ sns, j ∉ node_ids (nodeAt ch sn)) → out j = ws j) := by
  intro fuel
  induction fuel with
  | zero =>
    constructor
    · intro n pos ws out h
      obtain ⟨i, lay, ch⟩ := n
      simp [apply_sizes] at h
    · intro o pad sp cp ch sns lp sg ws out h
      simp [apply_positions] at h
  | succ fuel ih =>
    constructor
    · intro n pos ws out h j hj
      obtain ⟨i, lay, ch⟩ := n
      simp only [WidgetNode.children_mk] at hj
      rcases lay with _ | d
      · simp only [apply_sizes] at h
        exact (congrFun (Option.some.inj h) j).symm
      · simp only [apply_sizes] at h
        rcases hbo : d.subnodes.all (fun sn => sn < ch.length) with _ | _
        · rw [hbo] at h; simp at h
        · rw [hbo] at h
          have hb : ∀ sn ∈ d.subnodes, sn < ch.length := by
            intro sn hsn
            simpa using (List.all_eq_true.mp hbo) sn hsn
          have hnot : ∀ sn ∈ d.subnodes, j ∉ node_ids (nodeAt ch sn) := by
            intro sn hsn hmem
            exact hj (mem_kids_ids ch sn (hb sn hsn) j hmem)
          have hid : ∀ sn ∈ d.subnodes, (nodeAt ch sn).id ≠ j := by
            intro sn hsn heq
            exact hnot sn hsn (heq ▸ by rw [node_ids_def]; exact List.mem_cons_self _ _)
          have h2 := ih.2 _ _ _ _ _ _ _ _ _ _ h j hnot
          rw [h2]
          have hcf := apply_cross_frame d.orient d.padding ((ws i).size) ch d.subnodes ws j hid
          have hsf := expand_spacers_frame d.orient d.spacing d.padding ((ws i).size) ch
            d.subnodes (apply_cross d.orient d.padding ((ws i).size) ch d.subnodes ws) j hid
          split
          · rw [hsf, hcf]
          · rw [expand_expandable_frame d.orient d.spacing d.padding ((ws i).size) ch
              d.subnodes _ j hid, hsf, hcf]
    · intro o pad sp cp ch sns lp sg ws out h j hj
      rcases sns with _ | ⟨sn, rest⟩
      · simp only [apply_positions] at h
        exact (congrFun (Option.some.inj h) j).symm
      · simp only [apply_positions] at h
        rcases ha : apply_sizes fuel (nodeAt ch sn) (o.real_coord (lp + (if o.sized_length (ws (nodeAt ch sn).id) then sg else 0)) (cp + pad)) (upd ws (nodeAt ch sn).id ((ws (nodeAt ch sn).id).set_pos (o.real_coord (lp + (if o.sized_length (ws (nodeAt ch sn).id) then sg else 0)) (cp + pad)))) with _ | ws2
        · rw [ha] at h; simp at h
        · rw [ha] at h
          dsimp only at h
          have hhead := hj sn (List.mem_cons_self _ _)
          have hcid : (nodeAt ch sn).id ≠ j := by
            intro heq
            exact hhead (heq ▸ by rw [node_ids_def]; exact List.mem_cons_self _ _)
          have hkids : j ∉ kids_ids (nodeAt ch sn).children := by
            intro hmem
            exact hhead (by rw [node_ids_def]; exact List.mem_cons_of_mem _ hmem)
          have h1 := ih.1 _ _ _ _ ha j hkids
          have h2 := ih.2 _ _ _ _ _ _ _ _ _ _ h j
            (fun s hs => hj s (List.mem_cons_of_mem _ hs))
          rw [h2, h1, upd_ne _ _ _ _ (Ne.symm hcid)]

theorem apply_positions_sizes : ∀ (fuel : Nat) (o : Orient) (pad sp cp : ℚ)
    (ch : List WidgetNode) (sns : List Nat) (lp sg : ℚ) (ws out : Store),
    apply_positions fuel o pad sp cp ch sns lp sg ws = some out →
    List.Pairwise (fun a b => ∀ x ∈ node_ids (nodeAt ch a), x ∉ node_ids (nodeAt ch b)) sns →
    (∀ sn ∈ sns, (nodeAt ch sn).id ∉ kids_ids (nodeAt ch sn).children) →
    ∀ sn ∈ sns, (out (nodeAt ch sn).id).size = (ws (nodeAt ch sn).id).size := by
  intro fuel
  induction fuel with
  | zero =>
    intro o pad sp cp ch sns lp sg ws out h
    simp [apply_positions] at h
  | succ fuel ih =>
    intro o pad sp cp ch sns lp sg ws out h hpw hown s hs
    rcases sns with _ | ⟨sn, rest⟩
    · simp at hs
    · simp only [apply_positions] at h
      rcases ha : apply_sizes fuel (nodeAt ch sn)
          (o.real_coord (lp + if o.sized_length (ws (nodeAt ch sn).id) then sg else 0) (cp + pad))
          (upd ws (nodeAt ch sn).id ((ws (nodeAt ch sn).id).set_pos
            (o.real_coord (lp + if o.sized_length (ws (nodeAt ch sn).id) then sg else 0)
              (cp + pad)))) with _ | ws2
      · rw [ha] at h; simp at h
      · rw [ha] at h
        rw [List.pairwise_cons] at hpw
        rcases List.mem_cons.mp hs with heq | hs2
        · subst heq
          have hcid : (nodeAt ch s).id ∈ node_ids (nodeAt ch s) := by
            rw [node_ids_def]; exact List.mem_cons_self _ _
          have h1 := (apply_frame fuel).1 _ _ _ _ ha (nodeAt ch s).id
            (hown s (List.mem_cons_self _ _))
          have hrest : ∀ s2 ∈ rest, (nodeAt ch s).id ∉ node_ids (nodeAt ch s2) :=
            fun s2 hs2 => hpw.1 s2 hs2 (nodeAt ch s).id hcid
          have h2 := (apply_frame fuel).2 _ _ _ _ _ _ _ _ _ _ h (nodeAt ch s).id hrest
          rw [h2, h1, upd_same]
          rw [set_pos_size]
        · have hjin : (nodeAt ch s).id ∈ node_ids (nodeAt ch s) := by
            rw [node_ids_def]; exact List.mem_cons_self _ _
          have hnotc : (nodeAt ch s).id ∉ node_ids (nodeAt ch sn) := by
            intro hmem
            exact hpw.1 s hs2 (nodeAt ch s).id hmem hjin
          have hne : (nodeAt ch s).id ≠ (nodeAt ch sn).id := by
            intro heq
            exact hnotc (heq ▸ (by rw [node_ids_def]; exact List.mem_cons_self _ _))
          have hkids : (nodeAt ch s).id ∉ kids_ids (nodeAt ch sn).children := by
            intro hmem
            exact hnotc (by rw [node_ids_def]; exact List.mem_cons_of_mem _ hmem)
          have h1 := (apply_frame fuel).1 _ _ _ _ ha (nodeAt ch s).id hkids
          have h3 := ih _ _ _ _ _ _ _ _ _ _ h hpw.2
            (fun s2 hs2 => hown s2 (List.mem_cons_of_mem _ hs2)) s hs2
          rw [h3, h1, upd_ne _ _ _ _ hne]

theorem length_expandable_congr (o : Orient) (w1 w2 : Widget)
    (hw : w1.width_expandable = w2.width_expandable)
    (hh : w1.height_expandable = w2.height_expandable) :
    o.length_expandable w1 = o.length_expandable w2 := by
  cases o <;> simp [Orient.length_expandable, hw, hh]

/-- The view of a subnode widget the phase-2 expansion bookkeeping reads:
concrete kind, minimum size, expandability flags and length extent. -/
def exp_view (o : Orient) (w1 w2 : Widget) : Prop :=
  w1.kind = w2.kind ∧ w1.min_size = w2.min_size ∧
  w1.width_expandable = w2.width_expandable ∧
  w1.height_expandable = w2.height_expandable ∧
  o.len w1.size = o.len w2.size

theorem apply_cross_exp_view (o : Orient) (pad : ℚ) (sa : Size) (ch : List WidgetNode)
    (sns : List Nat) (ws : Store)
    (hidn : (sns.map (fun sn => (nodeAt ch sn).id)).Nodup) :
    ∀ sn ∈ sns, exp_view o
      (apply_cross o pad sa ch sns ws (nodeAt ch sn).id) (ws (nodeAt ch sn).id) := by
  intro sn hsn
  rw [apply_cross_get o pad sa ch sns ws hidn sn hsn]
  exact ⟨set_cross_kind _ _ _, set_cross_min _ _ _, set_cross_wexp _ _ _,
    set_cross_hexp _ _ _, set_cross_len _ _ _⟩

theorem count_spacers_congr (ch : List WidgetNode) (sns : List Nat) (ws1 ws2 : Store)
    (h : ∀ sn ∈ sns, (ws1 (nodeAt ch sn).id).kind = (ws2 (nodeAt ch sn).id).kind) :
    count_spacers ch sns ws1 = count_spacers ch sns ws2 := by
  rw [count_spacers, count_spacers]
  rw [List.filter_congr (fun sn hsn => by rw [h sn hsn])]

theorem count_expandables_congr (o : Orient) (ch : List WidgetNode) (sns : List Nat)
    (ws1 ws2 : Store)
    (h : ∀ sn ∈ sns, (ws1 (nodeAt ch sn).id).width_expandable =
        (ws2 (nodeAt ch sn).id).width_expandable ∧
      (ws1 (nodeAt ch sn).id).height_expandable = (ws2 (nodeAt ch sn).id).height_expandable) :
    count_expandables o ch sns ws1 = count_expandables o ch sns ws2 := by
  rw [count_expandables, count_expandables]
  rw [List.filter_congr (fun sn hsn =>
    length_expandable_congr o _ _ (h sn hsn).1 (h sn hsn).2)]

theorem sized_filter_congr (o : Orient) (ch : List WidgetNode) (sns : List Nat)
    (ws1 ws2 : Store)
    (h : ∀ sn ∈ sns, (ws1 (nodeAt ch sn).id).kind = (ws2 (nodeAt ch sn).id).kind ∧
      (ws1 (nodeAt ch sn).id).min_size = (ws2 (nodeAt ch sn).id).min_size) :
    sns.filter (fun sn => o.sized_length (ws1 (nodeAt ch sn).id)) =
      sns.filter (fun sn => o.sized_length (ws2 (nodeAt ch sn).id)) := by
  rw [List.filter_congr (fun sn hsn =>
    sized_length_congr o _ _ (h sn hsn).1 (h sn hsn).2)]

theorem foldl_len_congr (o : Orient) (ch : List WidgetNode) (ws1 ws2 : Store) :
    ∀ (sns : List Nat),
    (∀ sn ∈ sns, o.len ((ws1 (nodeAt ch sn).id).size) = o.len ((ws2 (nodeAt ch sn).id).size)) →
    ∀ a : ℚ, sns.foldl (fun acc sn => acc + o.len ((ws1 (nodeAt ch sn).id).size)) a =
      sns.foldl (fun acc sn => acc + o.len ((ws2 (nodeAt ch sn).id).size)) a := by
  intro sns
  induction sns with
  | nil => intro h a; rfl
  | cons sn rest ih =>
    intro h a
    rw [List.foldl_cons, List.foldl_cons, h sn (List.mem_cons_self _ _)]
    exact ih (fun s hs => h s (List.mem_cons_of_mem _ hs)) _

theorem expandable_length_congr (o : Orient) (sp pad : ℚ) (sa : Size)
    (ch : List WidgetNode) (sns : List Nat) (ws1 ws2 : Store)
    (h : ∀ sn ∈ sns, exp_view o (ws1 (nodeAt ch sn).id) (ws2 (nodeAt ch sn).id)) :
    expandable_length o sp pad sa ch sns ws1 = expandable_length o sp pad sa ch sns ws2 := by
  rw [expandable_length, expandable_length]
  rw [sized_filter_congr o ch sns ws1 ws2 (fun sn hsn => ⟨(h sn hsn).1, (h sn hsn).2.1⟩)]
  rw [foldl_len_congr o ch ws1 ws2 sns (fun sn hsn => (h sn hsn).2.2.2.2) 0]

/-- Modelled from the spec: the slack of a stack container — the available
length minus both paddings, minus one spacing gap between every two
length-sized children (none when fewer than two are sized), minus the sum
of the children's current lengths. -/
def spec_slack (o : Orient) (spacing padding : ℚ) (size_avail : Size)
    (ch : List WidgetNode) (sns : List Nat) (ws : Store) : ℚ :=
  let k := (sns.filter (fun sn => o.sized_length (ws (nodeAt ch sn).id))).length
  o.len size_avail - 2 * padding - spacing * ((k - 1 : ℕ) : ℚ)
    - sns.foldl (fun acc sn => acc + o.len ((ws (nodeAt ch sn).id).size)) 0

theorem usize_sub_one_eq (k : Nat) (h1 : 0 < k) (h2 : k < 2 ^ 64) :
    usize_sub_one k = k - 1 := by
  rw [usize_sub_one]
  omega

theorem expandable_length_eq_spec (o : Orient) (sp pad : ℚ) (sa : Size)
    (ch : List WidgetNode) (sns : List Nat) (ws : Store)
    (hk : 0 < (sns.filter (fun sn => o.sized_length (ws (nodeAt ch sn).id))).length)
    (hlen : sns.length < 2 ^ 64) :
    expandable_length o sp pad sa ch sns ws = spec_slack o sp pad sa ch sns ws := by
  rw [expandable_length, spec_slack]
  rw [usize_sub_one_eq _ hk (lt_of_le_of_lt (List.length_filter_le _ _) hlen)]
  ring

theorem count_spacers_zero (ch : List WidgetNode) (sns : List Nat) (ws : Store)
    (h : count_spacers ch sns ws = 0) :
    ∀ sn ∈ sns, ((ws (nodeAt ch sn).id).kind == WKind.spacer) = false := by
  intro sn hsn
  rw [count_spacers] at h
  rw [List.length_eq_zero] at h
  by_contra hb
  have hmem : sn ∈ sns.filter (fun sn => (ws (nodeAt ch sn).id).kind == WKind.spacer) :=
    List.mem_filter.mpr ⟨hsn, by simpa using hb⟩
  rw [h] at hmem
  simp at hmem

/-- C1 (amended): for a stack container with no Spacer subnode, at least
one length-sized subnode, and at least one length-expandable subnode,
phase-2 application leaves every length-expandable subnode's length grown
by exactly slack / N (N the number of length-expandable subnodes, slack
the available length minus paddings, gaps and natural lengths) and every
other subnode's length unchanged; widget ids must be distinct across the
subnode subtrees. -/
theorem expansion_distribution (fuel i : Nat) (d : StackLayoutData)
    (ch : List WidgetNode) (orig_pos : Coord) (ws out : Store)
    (h : apply_sizes (fuel + 1) (.mk i (some d) ch) orig_pos ws = some out)
    (hidn : (d.subnodes.map (fun sn => (nodeAt ch sn).id)).Nodup)
    (hpw : List.Pairwise (fun a b => ∀ x ∈ node_ids (nodeAt ch a),
      x ∉ node_ids (nodeAt ch b)) d.subnodes)
    (hown : ∀ sn ∈ d.subnodes, (nodeAt ch sn).id ∉ kids_ids (nodeAt ch sn).children)
    (hnosp : count_spacers ch d.subnodes ws = 0)
    (hk : 0 < (d.subnodes.filter
      (fun sn => d.orient.sized_length (ws (nodeAt ch sn).id))).length)
    (hlen : d.subnodes.length < 2 ^ 64)
    (hN : 0 < count_expandables d.orient ch d.subnodes ws) :
    ∀ sn ∈ d.subnodes,
      (d.orient.length_expandable (ws (nodeAt ch sn).id) = true →
        d.orient.len ((out (nodeAt ch sn).id).size) =
          d.orient.len ((ws (nodeAt ch sn).id).size) +
            spec_slack d.orient d.spacing d.padding ((ws i).size) ch d.subnodes ws /
              (count_expandables d.orient ch d.subnodes ws : ℚ)) ∧
      (d.orient.length_expandable (ws (nodeAt ch sn).id) = false →
        d.orient.len ((out (nodeAt ch sn).id).size) =
          d.orient.len ((ws (nodeAt ch sn).id).size)) := by
  simp only [apply_sizes] at h
  rcases hbo : d.subnodes.all (fun sn => sn < ch.length) with _ | _
  · rw [hbo] at h; simp at h
  · rw [hbo] at h
    have hview := apply_cross_exp_view d.orient d.padding ((ws i).size) ch d.subnodes ws hidn
    have hsp1 : count_spacers ch d.subnodes
        (apply_cross d.orient d.padding ((ws i).size) ch d.subnodes ws) = 0 := by
      rw [count_spacers_congr ch d.subnodes _ ws (fun sn hsn => (hview sn hsn).1)]
      exact hnosp
    have hsp : expand_spacers d.orient d.spacing d.padding ((ws i).size) ch d.subnodes
        (apply_cross d.orient d.padding ((ws i).size) ch d.subnodes ws) =
        (apply_cross d.orient d.padding ((ws i).size) ch d.subnodes ws, false) := by
      rw [expand_spacers, hsp1]
      simp
    rw [hsp] at h
    simp only [Bool.false_eq_true, if_false] at h
    have hNeq : count_expandables d.orient ch d.subnodes
        (apply_cross d.orient d.padding ((ws i).size) ch d.subnodes ws) =
        count_expandables d.orient ch d.subnodes ws :=
      count_expandables_congr _ ch d.subnodes _ ws
        (fun s hs => ⟨(hview s hs).2.2.1, (hview s hs).2.2.2.1⟩)
    have hE : expandable_length d.orient d.spacing d.padding ((ws i).size) ch d.subnodes
        (apply_cross d.orient d.padding ((ws i).size) ch d.subnodes ws)
        = spec_slack d.orient d.spacing d.padding ((ws i).size) ch d.subnodes ws := by
      rw [expandable_length_congr _ _ _ _ ch d.subnodes _ ws hview]
      exact expandable_length_eq_spec _ _ _ _ ch d.subnodes ws hk hlen
    intro sn hsn
    have hsz := apply_positions_sizes fuel _ _ _ _ ch d.subnodes _ _ _ _ h hpw hown sn hsn
    have hnospc : ((apply_cross d.orient d.padding ((ws i).size) ch d.subnodes ws
        (nodeAt ch sn).id).kind == WKind.spacer) = false :=
      count_spacers_zero ch d.subnodes _ hsp1 sn hsn
    have hws2 : expand_expandable_widgets d.orient d.spacing d.padding ((ws i).size) ch
        d.subnodes (apply_cross d.orient d.padding ((ws i).size) ch d.subnodes ws)
        (nodeAt ch sn).id =
        d.orient.expand_length
          (apply_cross d.orient d.padding ((ws i).size) ch d.subnodes ws (nodeAt ch sn).id)
          (spec_slack d.orient d.spacing d.padding ((ws i).size) ch d.subnodes ws /
            (count_expandables d.orient ch d.subnodes ws : ℚ)) := by
      simp only [expand_expandable_widgets]
      rw [hNeq]
      rw [if_neg (by omega)]
      rw [expandable_fold_get d.orient _ ch d.subnodes _ hidn sn hsn]
      rw [if_neg (by rw [hnospc]; simp)]
      rw [hE]
    have hlexp : d.orient.length_expandable
        (apply_cross d.orient d.padding ((ws i).size) ch d.subnodes ws (nodeAt ch sn).id) =
        d.orient.length_expandable (ws (nodeAt ch sn).id) :=
      length_expandable_congr _ _ _ (hview sn hsn).2.2.1 (hview sn hsn).2.2.2.1
    constructor
    · intro hexp
      rw [hsz, hws2, expand_length_len]
      rw [if_pos (by rw [hlexp]; exact hexp)]
      rw [(hview sn hsn).2.2.2.2]
    · intro hexp
      rw [hsz, hws2, expand_length_len]
      rw [if_neg (by rw [hlexp, hexp]; simp)]
      rw [(hview sn hsn).2.2.2.2, add_zero]

/-- C2 (amended): with at least one Spacer subnode and at least one
length-sized subnode, phase-2 application grows every length-expandable
Spacer subnode's length by exactly slack / (number of Spacers) and leaves
every non-Spacer subnode's length unchanged even when it is marked
length-expandable; widget ids must be distinct across the subnode
subtrees. -/
theorem spacer_precedence (fuel i : Nat) (d : StackLayoutData)
    (ch : List WidgetNode) (orig_pos : Coord) (ws out : Store)
    (h : apply_sizes (fuel + 1) (.mk i (some d) ch) orig_pos ws = some out)
    (hidn : (d.subnodes.map (fun sn => (nodeAt ch sn).id)).Nodup)
    (hpw : List.Pairwise (fun a b => ∀ x ∈ node_ids (nodeAt ch a),
      x ∉ node_ids (nodeAt ch b)) d.subnodes)
    (hown : ∀ sn ∈ d.subnodes, (nodeAt ch sn).id ∉ kids_ids (nodeAt ch sn).children)
    (hspc : 0 < count_spacers ch d.subnodes ws)
    (hk : 0 < (d.subnodes.filter
      (fun sn => d.orient.sized_length (ws (nodeAt ch sn).id))).length)
    (hlen : d.subnodes.length < 2 ^ 64) :
    ∀ sn ∈ d.subnodes,
      (((ws (nodeAt ch sn).id).kind == WKind.spacer) = true →
        d.orient.length_expandable (ws (nodeAt ch sn).id) = true →
        d.orient.len ((out (nodeAt ch sn).id).size) =
          d.orient.len ((ws (nodeAt ch sn).id).size) +
            spec_slack d.orient d.spacing d.padding ((ws i).size) ch d.subnodes ws /
              (count_spacers ch d.subnodes ws : ℚ)) ∧
      (((ws (nodeAt ch sn).id).kind == WKind.spacer) = false →
        d.orient.len ((out (nodeAt ch sn).id).size) =
          d.orient.len ((ws (nodeAt ch sn).id).size)) := by
  simp only [apply_sizes] at h
  rcases hbo : d.subnodes.all (fun sn => sn < ch.length) with _ | _
  · rw [hbo] at h; simp at h
  · rw [hbo] at h
    have hview := apply_cross_exp_view d.orient d.padding ((ws i).size) ch d.subnodes ws hidn
    have hsp1 : count_spacers ch d.subnodes
        (apply_cross d.orient d.padding ((ws i).size) ch d.subnodes ws) =
        count_spacers ch d.subnodes ws := by
      exact count_spacers_congr ch d.subnodes _ ws (fun sn hsn => (hview sn hsn).1)
    have hne0 : count_spacers ch d.subnodes
        (apply_cross d.orient d.padding ((ws i).size) ch d.subnodes ws) ≠ 0 := by
      rw [hsp1]; omega
    have hc2 : (expand_spacers d.orient d.spacing d.padding ((ws i).size) ch d.subnodes
        (apply_cross d.orient d.padding ((ws i).size) ch d.subnodes ws)).2 = true := by
      simp only [expand_spacers]
      rw [if_neg hne0]
    rw [if_pos hc2] at h
    have hE : expandable_length d.orient d.spacing d.padding ((ws i).size) ch d.subnodes
        (apply_cross d.orient d.padding ((ws i).size) ch d.subnodes ws)
        = spec_slack d.orient d.spacing d.padding ((ws i).size) ch d.subnodes ws := by
      rw [expandable_length_congr _ _ _ _ ch d.subnodes _ ws hview]
      exact expandable_length_eq_spec _ _ _ _ ch d.subnodes ws hk hlen
    intro sn hsn
    have hsz := apply_positions_sizes fuel _ _ _ _ ch d.subnodes _ _ _ _ h hpw hown sn hsn
    have hp1 : (expand_spacers d.orient d.spacing d.padding ((ws i).size) ch d.subnodes
        (apply_cross d.orient d.padding ((ws i).size) ch d.subnodes ws)).1
        (nodeAt ch sn).id =
        (if ((apply_cross d.orient d.padding ((ws i).size) ch d.subnodes ws
            (nodeAt ch sn).id).kind == WKind.spacer) = true
          then d.orient.expand_length
            (apply_cross d.orient d.padding ((ws i).size) ch d.subnodes ws (nodeAt ch sn).id)
            (spec_slack d.orient d.spacing d.padding ((ws i).size) ch d.subnodes ws /
              (count_spacers ch d.subnodes ws : ℚ))
          else apply_cross d.orient d.padding ((ws i).size) ch d.subnodes ws
            (nodeAt ch sn).id) := by
      simp only [expand_spacers]
      rw [if_neg hne0]
      dsimp only
      rw [spacer_fold_get d.orient _ ch d.subnodes _ hidn sn hsn]
      rw [hE, hsp1]
    have hkind : (apply_cross d.orient d.padding ((ws i).size) ch d.subnodes ws
        (nodeAt ch sn).id).kind = (ws (nodeAt ch sn).id).kind := (hview sn hsn).1
    have hlexp : d.orient.length_expandable
        (apply_cross d.orient d.padding ((ws i).size) ch d.subnodes ws (nodeAt ch sn).id) =
        d.orient.length_expandable (ws (nodeAt ch sn).id) :=
      length_expandable_congr _ _ _ (hview sn hsn).2.2.1 (hview sn hsn).2.2.2.1
    constructor
    · intro hsp hexp
      rw [hsz, hp1]
      rw [if_pos (by rw [hkind]; exact hsp)]
      rw [expand_length_len]
      rw [if_pos (by rw [hlexp]; exact hexp)]
      rw [(hview sn hsn).2.2.2.2]
    · intro hsp
      rw [hsz, hp1]
      rw [if_neg (by rw [hkind, hsp]; simp)]
      rw [(hview sn hsn).2.2.2.2]

@[simp] theorem wkind_beq_ps : (WKind.plain == WKind.spacer) = false := rfl

@[simp] theorem wkind_beq_pl : (WKind.plain == WKind.layoutWidget) = false := rfl

@[simp] theorem wkind_beq_ss : (WKind.spacer == WKind.spacer) = true := rfl

@[simp] theorem wkind_beq_sl : (WKind.spacer == WKind.layoutWidget) = false := rfl

@[simp] theorem wkind_beq_ls : (WKind.layoutWidget == WKind.spacer) = false := rfl

@[simp] theorem wkind_beq_ll : (WKind.layoutWidget == WKind.layoutWidget) = true := rfl

/-- Store for the expansion counterexample: the container widget 0 has
size 100 by 50; widget 1 is a zero-minimum width-expandable plain
widget. -/
def c1_store : Store := fun i =>
  if i = 0 then { plain_widget ⟨0, 0⟩ false false with layout := ⟨⟨0, 0⟩, ⟨100, 50⟩⟩ }
  else plain_widget ⟨0, 0⟩ true false

/-- Horizontal container (padding 0, spacing 5) holding only the
zero-minimum expandable plain widget. -/
def c1_node : WidgetNode := .mk 0 (some ⟨.horizontal, 0, 5, [0]⟩) [.mk 1 none []]

set_option maxHeartbeats 2000000 in
/-- Counterexample to the claimed expansion distribution: a horizontal
container (padding 0, spacing 5, available length 100) with no Spacer and
exactly one length-expandable child of zero minimum size.  No child is
length-sized, so the code's `(sized_widgets - 1) as f64` underflows on the
usize and the child's width becomes 100 - 5 * (2^64 - 1) instead of
growing by the slack over N = 1. -/
theorem expansion_cex :
    count_spacers [WidgetNode.mk 1 none []] [0] c1_store = 0 ∧
    count_expandables .horizontal [WidgetNode.mk 1 none []] [0] c1_store = 1 ∧
    (apply_sizes 3 c1_node ⟨0, 0⟩ c1_store).map
      (fun out => Orient.horizontal.len ((out 1).size)) =
      some (100 - 5 * (2 ^ 64 - 1)) ∧
    (100 - 5 * (2 ^ 64 - 1) : ℚ) ≠
      Orient.horizontal.len ((c1_store 1).size) +
        spec_slack .horizontal 5 0 ((c1_store 0).size) [WidgetNode.mk 1 none []] [0]
          c1_store /
          (count_expandables .horizontal [WidgetNode.mk 1 none []] [0] c1_store : ℚ) := by
  refine ⟨?_, ?_, ?_, ?_⟩
  · simp +decide [count_spacers, c1_store, nodeAt, plain_widget, List.filter]
  · norm_num [count_expandables, c1_store, nodeAt, plain_widget,
      Orient.length_expandable]
  · norm_num [apply_sizes, apply_positions, apply_cross, expand_spacers,
      expand_expandable_widgets, count_spacers, count_expandables, expandable_length,
      usize_sub_one, c1_node, c1_store, nodeAt, plain_widget, Orient.len, Orient.cross,
      Orient.sized_length, Orient.length_expandable, Orient.set_cross, Orient.expand_length,
      Orient.len_cross_pos, Orient.real_coord, Widget.sized_width, Widget.sized_height,
      Widget.expand_width, Widget.size, Widget.set_pos, upd, List.filter]
    simp +decide [upd]
  · norm_num [spec_slack, c1_store, plain_widget, nodeAt, Orient.len,
      Orient.sized_length, Widget.sized_width, Widget.size, count_expandables,
      Orient.length_expandable, List.filter]

/-- Store for the amended-expansion witness: the container widget 0 has
size 100 by 50; widget 1 is a fixed 10 by 10 plain widget; widget 2 is a
zero-minimum width-expandable plain widget. -/
def c1w_store : Store := fun i =>
  if i = 0 then { plain_widget ⟨0, 0⟩ false false with layout := ⟨⟨0, 0⟩, ⟨100, 50⟩⟩ }
  else if i = 1 then plain_widget ⟨10, 10⟩ false false
  else plain_widget ⟨0, 0⟩ true false

/-- The two leaf children of the amended-expansion witness container. -/
def c1w_ch : List WidgetNode := [.mk 1 none [], .mk 2 none []]

/-- Horizontal container (padding 0, spacing 5) over c1w_ch. -/
def c1w_node : WidgetNode := .mk 0 (some ⟨.horizontal, 0, 5, [0, 1]⟩) c1w_ch

set_option maxHeartbeats 2000000 in
theorem expansion_distribution_witness :
    ∃ out, apply_sizes 5 c1w_node ⟨0, 0⟩ c1w_store = some out ∧
      Orient.horizontal.len ((out 2).size) =
        Orient.horizontal.len ((c1w_store 2).size) +
          spec_slack .horizontal 5 0 ((c1w_store 0).size) c1w_ch [0, 1] c1w_store /
            (count_expandables .horizontal c1w_ch [0, 1] c1w_store : ℚ) ∧
      Orient.horizontal.len ((out 1).size) =
        Orient.horizontal.len ((c1w_store 1).size) := by
  rcases hr : apply_sizes 5 c1w_node ⟨0, 0⟩ c1w_store with _ | out
  · exact absurd hr (by
      norm_num [apply_sizes, apply_positions, apply_cross, expand_spacers,
        expand_expandable_widgets, count_spacers, count_expandables, expandable_length,
        usize_sub_one, c1w_node, c1w_ch, c1w_store, nodeAt, plain_widget, Orient.len,
        Orient.cross, Orient.sized_length, Orient.length_expandable, Orient.set_cross,
        Orient.expand_length, Orient.len_cross_pos, Orient.real_coord, Widget.sized_width,
        Widget.sized_height, Widget.expand_width, Widget.size, Widget.set_pos, upd,
        List.filter]
      exact fun hx => Option.noConfusion hx)
  · have hmain := expansion_distribution 4 0 ⟨.horizontal, 0, 5, [0, 1]⟩ c1w_ch ⟨0, 0⟩
      c1w_store out hr
      (by norm_num [nodeAt, c1w_ch])
      (by
        norm_num [List.pairwise_cons, node_ids, kids_ids, nodeAt, c1w_ch])
      (by
        intro sn hsn
        have hc : sn = 0 ∨ sn = 1 := by simpa using hsn
        rcases hc with rfl | rfl <;> simp [nodeAt, c1w_ch, kids_ids])
      (by norm_num [count_spacers, c1w_ch, c1w_store, nodeAt, plain_widget])
      (by norm_num [c1w_ch, c1w_store, nodeAt, plain_widget, Orient.sized_length,
        Widget.sized_width, List.filter])
      (by norm_num)
      (by norm_num [count_expandables, c1w_ch, c1w_store, nodeAt, plain_widget,
        Orient.length_expandable])
    refine ⟨out, rfl, ?_, ?_⟩
    · exact (hmain 1 (by norm_num)).1
        (by norm_num [c1w_ch, c1w_store, nodeAt, plain_widget, Orient.length_expandable])
    · exact (hmain 0 (by norm_num)).2
        (by norm_num [c1w_ch, c1w_store, nodeAt, plain_widget, Orient.length_expandable])

/-- Store for the spacer counterexample: the container widget 0 has size
100 by 50; widget 1 is a width-expandable Spacer. -/
def c2_store : Store := fun i =>
  if i = 0 then { plain_widget ⟨0, 0⟩ false false with layout := ⟨⟨0, 0⟩, ⟨100, 50⟩⟩ }
  else spacer_widget true false

/-- Horizontal container (padding 0, spacing 5) holding only the Spacer. -/
def c2_node : WidgetNode := .mk 0 (some ⟨.horizontal, 0, 5, [0]⟩) [.mk 1 none []]

set_option maxHeartbeats 2000000 in
/-- Counterexample to the claimed spacer slack distribution: a horizontal
container (padding 0, spacing 5, available length 100) holding exactly one
Spacer.  No child is length-sized, so the code's `(sized_widgets - 1) as
f64` underflows on the usize and the Spacer's width becomes
100 - 5 * (2^64 - 1) instead of the whole slack divided by the single
Spacer. -/
theorem spacer_cex :
    count_spacers [WidgetNode.mk 1 none []] [0] c2_store = 1 ∧
    (apply_sizes 3 c2_node ⟨0, 0⟩ c2_store).map
      (fun out => Orient.horizontal.len ((out 1).size)) =
      some (100 - 5 * (2 ^ 64 - 1)) ∧
    (100 - 5 * (2 ^ 64 - 1) : ℚ) ≠
      Orient.horizontal.len ((c2_store 1).size) +
        spec_slack .horizontal 5 0 ((c2_store 0).size) [WidgetNode.mk 1 none []] [0]
          c2_store /
          (count_spacers [WidgetNode.mk 1 none []] [0] c2_store : ℚ) := by
  refine ⟨?_, ?_, ?_⟩
  · norm_num [count_spacers, c2_store, nodeAt, spacer_widget]
  · norm_num [apply_sizes, apply_positions, apply_cross, expand_spacers,
      expand_expandable_widgets, count_spacers, count_expandables, expandable_length,
      usize_sub_one, c2_node, c2_store, nodeAt, plain_widget, spacer_widget, Orient.len,
      Orient.cross, Orient.sized_length, Orient.length_expandable, Orient.set_cross,
      Orient.expand_length, Orient.len_cross_pos, Orient.real_coord, Widget.sized_width,
      Widget.sized_height, Widget.expand_width, Widget.size, Widget.set_pos, upd,
      List.filter]
  · norm_num [spec_slack, c2_store, plain_widget, spacer_widget, nodeAt, Orient.len,
      Orient.sized_length, Widget.sized_width, Widget.size, count_spacers, List.filter]

/-- Store for the amended-spacer witness: the container widget 0 has size
100 by 50; widget 1 is a fixed 10 by 10 plain widget; widget 2 is a
width-expandable Spacer. -/
def c2w_store : Store := fun i =>
  if i = 0 then { plain_widget ⟨0, 0⟩ false false with layout := ⟨⟨0, 0⟩, ⟨100, 50⟩⟩ }
  else if i = 1 then plain_widget ⟨10, 10⟩ true false
  else spacer_widget true false

/-- The two leaf children of the amended-spacer witness container. -/
def c2w_ch : List WidgetNode := [.mk 1 none [], .mk 2 none []]

/-- Horizontal container (padding 0, spacing 5) over c2w_ch. -/
def c2w_node : WidgetNode := .mk 0 (some ⟨.horizontal, 0, 5, [0, 1]⟩) c2w_ch

set_option maxHeartbeats 2000000 in
theorem spacer_precedence_witness :
    ∃ out, apply_sizes 5 c2w_node ⟨0, 0⟩ c2w_store = some out ∧
      Orient.horizontal.len ((out 2).size) =
        Orient.horizontal.len ((c2w_store 2).size) +
          spec_slack .horizontal 5 0 ((c2w_store 0).size) c2w_ch [0, 1] c2w_store /
            (count_spacers c2w_ch [0, 1] c2w_store : ℚ) ∧
      Orient.horizontal.len ((out 1).size) =
        Orient.horizontal.len ((c2w_store 1).size) := by
  rcases hr : apply_sizes 5 c2w_node ⟨0, 0⟩ c2w_store with _ | out
  · exact absurd hr (by
      norm_num [apply_sizes, apply_positions, apply_cross, expand_spacers,
        expand_expandable_widgets, count_spacers, count_expandables, expandable_length,
        usize_sub_one, c2w_node, c2w_ch, c2w_store, nodeAt, plain_widget, spacer_widget,
        Orient.len, Orient.cross, Orient.sized_length, Orient.length_expandable,
        Orient.set_cross, Orient.expand_length, Orient.len_cross_pos, Orient.real_coord,
        Widget.sized_width, Widget.sized_height, Widget.expand_width, Widget.size,
        Widget.set_pos, upd, List.filter]
      exact fun hx => Option.noConfusion hx)
  · have hmain := spacer_precedence 4 0 ⟨.horizontal, 0, 5, [0, 1]⟩ c2w_ch ⟨0, 0⟩
      c2w_store out hr
      (by norm_num [nodeAt, c2w_ch])
      (by norm_num [List.pairwise_cons, node_ids, kids_ids, nodeAt, c2w_ch])
      (by
        intro sn hsn
        have hc : sn = 0 ∨ sn = 1 := by simpa using hsn
        rcases hc with rfl | rfl <;> simp [nodeAt, c2w_ch, kids_ids])
      (by norm_num [count_spacers, c2w_ch, c2w_store, nodeAt, plain_widget, spacer_widget])
      (by norm_num [c2w_ch, c2w_store, nodeAt, plain_widget, spacer_widget,
        Orient.sized_length, Widget.sized_width, List.filter])
      (by norm_num)
    refine ⟨out, rfl, ?_, ?_⟩
    · exact (hmain 1 (by norm_num)).1
        (by norm_num [c2w_ch, c2w_store, nodeAt, spacer_widget])
        (by norm_num [c2w_ch, c2w_store, nodeAt, spacer_widget, Orient.length_expandable])
    · exact (hmain 0 (by norm_num)).2
        (by norm_num [c2w_ch, c2w_store, nodeAt, plain_widget])

/-- The length-axis extent the subnode loop of apply_positions advances
over: per child a spacing gap (charged only when a length-sized child
follows a length-sized one) plus the child's current length. -/
def stack_cost (o : Orient) (sp : ℚ) (ch : List WidgetNode) (ws : Store) :
    List Nat → ℚ → ℚ
  | [], _ => 0
  | sn :: rest, sg =>
    (if o.sized_length (ws (nodeAt ch sn).id) then sg else 0) +
      o.len ((ws (nodeAt ch sn).id).size) +
      stack_cost o sp ch ws rest (if o.sized_length (ws (nodeAt ch sn).id) then sp else 0)

theorem len_cross_pos_real_coord (o : Orient) (a b : ℚ) :
    o.len_cross_pos (o.real_coord a b) = (a, b) := by
  cases o <;> rfl

theorem expand_length_cross (o : Orient) (wg : Widget) (a : ℚ) :
    o.cross (o.expand_length wg a).size = o.cross wg.size := by
  cases o <;> simp only [Orient.expand_length] <;> split <;> rfl

/-- Whether set_cross acts on a widget: its cross-axis expandability. -/
def Orient.cross_expandable (o : Orient) (wg : Widget) : Bool :=
  match o with
  | .horizontal => wg.height_expandable
  | .vertical => wg.width_expandable

theorem set_cross_cross (o : Orient) (wg : Widget) (v : ℚ) :
    o.cross (o.set_cross wg v).size =
      (if o.cross_expandable wg then v else o.cross wg.size) := by
  cases o <;> simp only [Orient.set_cross, Orient.cross_expandable] <;> split <;>
    simp [Orient.cross, Widget.set_height, Widget.set_width, Widget.size]

theorem foldl_add_shift (f : Nat → ℚ) :
    ∀ (sns : List Nat) (a c : ℚ),
    sns.foldl (fun acc sn => acc + f sn) (a + c) =
      sns.foldl (fun acc sn => acc + f sn) a + c := by
  intro sns
  induction sns with
  | nil => intro a c; rfl
  | cons sn rest ih =>
    intro a c
    rw [List.foldl_cons, List.foldl_cons]
    rw [show a + c + f sn = a + f sn + c by ring]
    exact ih _ _

theorem foldl_add_mono (f g : Nat → ℚ) :
    ∀ (sns : List Nat) (a b : ℚ), a ≤ b → (∀ sn ∈ sns, f sn ≤ g sn) →
    sns.foldl (fun acc sn => acc + f sn) a ≤ sns.foldl (fun acc sn => acc + g sn) b := by
  intro sns
  induction sns with
  | nil => intro a b hab h; exact hab
  | cons sn rest ih =>
    intro a b hab h
    rw [List.foldl_cons, List.foldl_cons]
    refine ih _ _ ?_ (fun s hs => h s (List.mem_cons_of_mem _ hs))
    have := h sn (List.mem_cons_self _ _)
    linarith

theorem foldl_add_split (f : Nat → ℚ) (E : ℚ) (p : Nat → Bool) :
    ∀ (sns : List Nat) (a : ℚ),
    sns.foldl (fun acc sn => acc + (f sn + (if p sn then E else 0))) a =
      sns.foldl (fun acc sn => acc + f sn) a + E * ((sns.filter p).length : ℚ) := by
  intro sns
  induction sns with
  | nil => intro a; simp
  | cons sn rest ih =>
    intro a
    rw [List.foldl_cons, List.foldl_cons, ih]
    rcases hp : p sn with _ | _
    · rw [if_neg (by simp [hp]), List.filter_cons_of_neg (by simp [hp])]
      rw [add_zero]
    · rw [if_pos (by simp [hp]), List.filter_cons_of_pos (by simp [hp])]
      rw [show a + (f sn + E) = a + f sn + E by ring, foldl_add_shift]
      simp only [List.length_cons]
      push_cast
      ring

theorem stack_cost_nonneg (o : Orient) (sp : ℚ) (ch : List WidgetNode) (ws : Store) :
    ∀ (sns : List Nat) (sg : ℚ), 0 ≤ sg → 0 ≤ sp →
    (∀ sn ∈ sns, 0 ≤ o.len ((ws (nodeAt ch sn).id).size)) →
    0 ≤ stack_cost o sp ch ws sns sg := by
  intro sns
  induction sns with
  | nil =>
    intro sg h1 h2 h3
    rw [stack_cost]
  | cons sn rest ih =>
    intro sg h1 h2 h3
    rw [stack_cost]
    have hr : 0 ≤ stack_cost o sp ch ws rest
        (if o.sized_length (ws (nodeAt ch sn).id) then sp else 0) := by
      refine ih _ ?_ h2 (fun s hs => h3 s (List.mem_cons_of_mem _ hs))
      split
      · exact h2
      · exact le_refl 0
    have hg : 0 ≤ (if o.sized_length (ws (nodeAt ch sn).id) then sg else 0) := by
      split
      · exact h1
      · exact le_refl 0
    have hl := h3 sn (List.mem_cons_self _ _)
    linarith

theorem stack_cost_le (o : Orient) (sp : ℚ) (ch : List WidgetNode) (ws : Store) :
    ∀ (sns : List Nat) (sg : ℚ), 0 ≤ sg → 0 ≤ sp →
    stack_cost o sp ch ws sns sg ≤
      sns.foldl (fun acc sn => acc + o.len ((ws (nodeAt ch sn).id).size)) 0 +
        (if (sns.filter (fun sn => o.sized_length (ws (nodeAt ch sn).id))).length = 0
          then 0
          else sg + sp * (((sns.filter
            (fun sn => o.sized_length (ws (nodeAt ch sn).id))).length : ℚ) - 1)) := by
  intro sns
  induction sns with
  | nil =>
    intro sg h1 h2
    simp [stack_cost]
  | cons sn rest ih =>
    intro sg h1 h2
    rw [stack_cost, List.foldl_cons]
    rcases hszd : o.sized_length (ws (nodeAt ch sn).id) with _ | _
    · rw [if_neg (by simp [hszd]), if_neg (by simp [hszd])]
      rw [List.filter_cons_of_neg (by simp [hszd])]
      have hr := ih 0 le_rfl h2
      rw [show (0 : ℚ) + o.len ((ws (nodeAt ch sn).id).size) =
        0 + o.len ((ws (nodeAt ch sn).id).size) from rfl, foldl_add_shift]
      rcases hf : (rest.filter (fun sn => o.sized_length (ws (nodeAt ch sn).id))).length
        with _ | m
      · rw [hf] at hr
        norm_num at hr ⊢
        linarith
      · rw [hf] at hr
        rw [if_neg (by omega)] at hr ⊢
        push_cast at hr ⊢
        linarith
    · rw [if_pos rfl, if_pos rfl]
      rw [List.filter_cons_of_pos (by simp [hszd])]
      have hr := ih sp h2 h2
      rw [show (0 : ℚ) + o.len ((ws (nodeAt ch sn).id).size) =
        0 + o.len ((ws (nodeAt ch sn).id).size) from rfl, foldl_add_shift]
      rw [if_neg (by simp)]
      simp only [List.length_cons]
      rcases hf : (rest.filter (fun sn => o.sized_length (ws (nodeAt ch sn).id))).length
        with _ | m
      · rw [hf] at hr
        norm_num at hr
        push_cast
        linarith
      · rw [hf] at hr
        rw [if_neg (by omega)] at hr
        push_cast at hr ⊢
        linarith

theorem stack_cost_congr (o : Orient) (sp : ℚ) (ch : List WidgetNode) (ws1 ws2 : Store) :
    ∀ (sns : List Nat), (∀ sn ∈ sns,
      o.len ((ws1 (nodeAt ch sn).id).size) = o.len ((ws2 (nodeAt ch sn).id).size) ∧
      o.sized_length (ws1 (nodeAt ch sn).id) = o.sized_length (ws2 (nodeAt ch sn).id)) →
    ∀ sg, stack_cost o sp ch ws1 sns sg = stack_cost o sp ch ws2 sns sg := by
  intro sns
  induction sns with
  | nil => intro h sg; rw [stack_cost, stack_cost]
  | cons sn rest ih =>
    intro h sg
    rw [stack_cost, stack_cost]
    rw [(h sn (List.mem_cons_self _ _)).1, (h sn (List.mem_cons_self _ _)).2]
    rw [ih (fun s hs => h s (List.mem_cons_of_mem _ hs))]

theorem apply_positions_bounds : ∀ (fuel : Nat) (o : Orient) (pad sp cp : ℚ)
    (ch : List WidgetNode) (sns : List Nat) (lp sg : ℚ) (ws out : Store),
    apply_positions fuel o pad sp cp ch sns lp sg ws = some out →
    List.Pairwise (fun a b => ∀ x ∈ node_ids (nodeAt ch a), x ∉ node_ids (nodeAt ch b)) sns →
    (∀ sn ∈ sns, (nodeAt ch sn).id ∉ kids_ids (nodeAt ch sn).children) →
    0 ≤ sg → sg ≤ sp → 0 ≤ sp →
    (∀ sn ∈ sns, 0 ≤ o.len ((ws (nodeAt ch sn).id).size)) →
    ∀ sn ∈ sns,
      lp ≤ (o.len_cross_pos ((out (nodeAt ch sn).id).position)).1 ∧
      (o.len_cross_pos ((out (nodeAt ch sn).id).position)).1 +
          o.len ((out (nodeAt ch sn).id).size) ≤
        lp + stack_cost o sp ch ws sns sg ∧
      (o.len_cross_pos ((out (nodeAt ch sn).id).position)).2 = cp + pad := by
  intro fuel
  induction fuel with
  | zero =>
    intro o pad sp cp ch sns lp sg ws out h
    simp [apply_positions] at h
  | succ fuel ih =>
    intro o pad sp cp ch sns lp sg ws out h hpw hown hsg1 hsg2 hsp hlens s hs
    rcases sns with _ | ⟨sn, rest⟩
    · simp at hs
    · simp only [apply_positions] at h
      rcases ha : apply_sizes fuel (nodeAt ch sn)
          (o.real_coord (lp + if o.sized_length (ws (nodeAt ch sn).id) then sg else 0) (cp + pad))
          (upd ws (nodeAt ch sn).id ((ws (nodeAt ch sn).id).set_pos
            (o.real_coord (lp + if o.sized_length (ws (nodeAt ch sn).id) then sg else 0)
              (cp + pad)))) with _ | ws2
      · rw [ha] at h; simp at h
      · rw [ha] at h
        rw [List.pairwise_cons] at hpw
        have hgap : (0 : ℚ) ≤ (if o.sized_length (ws (nodeAt ch sn).id) then sg else 0) := by
          split
          · exact hsg1
          · exact le_refl 0
        have hsg1n : (0 : ℚ) ≤ (if o.sized_length (ws (nodeAt ch sn).id) then sp else 0) := by
          split
          · exact hsp
          · exact le_refl 0
        have hsg2n : (if o.sized_length (ws (nodeAt ch sn).id) then sp else 0) ≤ sp := by
          split
          · exact le_refl sp
          · exact hsp
        rcases List.mem_cons.mp hs with heq | hs2
        · subst heq
          have hcid : (nodeAt ch s).id ∈ node_ids (nodeAt ch s) := by
            rw [node_ids_def]; exact List.mem_cons_self _ _
          have h1 := (apply_frame fuel).1 _ _ _ _ ha (nodeAt ch s).id
            (hown s (List.mem_cons_self _ _))
          have hrest : ∀ s2 ∈ rest, (nodeAt ch s).id ∉ node_ids (nodeAt ch s2) :=
            fun s2 hs2 => hpw.1 s2 hs2 (nodeAt ch s).id hcid
          have h2 := (apply_frame fuel).2 _ _ _ _ _ _ _ _ _ _ h (nodeAt ch s).id hrest
          rw [h2, h1, upd_same]
          have hpos : (((ws (nodeAt ch s).id).set_pos
              (o.real_coord (lp + if o.sized_length (ws (nodeAt ch s).id) then sg else 0)
                (cp + pad))).position) =
              o.real_coord (lp + if o.sized_length (ws (nodeAt ch s).id) then sg else 0)
                (cp + pad) := by
            simp [Widget.position, Widget.set_pos]
          rw [hpos, len_cross_pos_real_coord]
          dsimp only
          have hcost : 0 ≤ stack_cost o sp ch ws rest
              (if o.sized_length (ws (nodeAt ch s).id) then sp else 0) :=
            stack_cost_nonneg o sp ch ws rest _ hsg1n hsp
              (fun s2 hs2 => hlens s2 (List.mem_cons_of_mem _ hs2))
          refine ⟨by linarith, ?_, rfl⟩
          rw [set_pos_size, stack_cost]
          have hl := hlens s (List.mem_cons_self _ _)
          linarith
        · have hjin : (nodeAt ch s).id ∈ node_ids (nodeAt ch s) := by
            rw [node_ids_def]; exact List.mem_cons_self _ _
          have hnotc : (nodeAt ch s).id ∉ node_ids (nodeAt ch sn) := by
            intro hmem
            exact hpw.1 s hs2 (nodeAt ch s).id hmem hjin
          have hne : (nodeAt ch s).id ≠ (nodeAt ch sn).id := by
            intro heq
            exact hnotc (heq ▸ (by rw [node_ids_def]; exact List.mem_cons_self _ _))
          have hkids : (nodeAt ch s).id ∉ kids_ids (nodeAt ch sn).children := by
            intro hmem
            exact hnotc (by rw [node_ids_def]; exact List.mem_cons_of_mem _ hmem)
          have hws2eq : ∀ s2 ∈ rest, ws2 (nodeAt ch s2).id = ws (nodeAt ch s2).id := by
            intro s2 hs2r
            have hjin2 : (nodeAt ch s2).id ∈ node_ids (nodeAt ch s2) := by
              rw [node_ids_def]; exact List.mem_cons_self _ _
            have hnotc2 : (nodeAt ch s2).id ∉ node_ids (nodeAt ch sn) := by
              intro hmem
              exact hpw.1 s2 hs2r (nodeAt ch s2).id hmem hjin2
            have hne2 : (nodeAt ch s2).id ≠ (nodeAt ch sn).id := by
              intro heq
              exact hnotc2 (heq ▸ (by rw [node_ids_def]; exact List.mem_cons_self _ _))
            have hkids2 : (nodeAt ch s2).id ∉ kids_ids (nodeAt ch sn).children := by
              intro hmem
              exact hnotc2 (by rw [node_ids_def]; exact List.mem_cons_of_mem _ hmem)
            have h1 := (apply_frame fuel).1 _ _ _ _ ha (nodeAt ch s2).id hkids2
            rw [h1, upd_ne _ _ _ _ hne2]
          have ihr := ih _ _ _ _ _ _ _ _ _ _ h hpw.2
            (fun s2 hs2r => hown s2 (List.mem_cons_of_mem _ hs2r)) hsg1n hsg2n hsp
            (fun s2 hs2r => by rw [hws2eq s2 hs2r]; exact hlens s2 (List.mem_cons_of_mem _ hs2r))
            s hs2
          have hcostc : stack_cost o sp ch ws2 rest
              (if o.sized_length (ws (nodeAt ch sn).id) then sp else 0) =
              stack_cost o sp ch ws rest
                (if o.sized_length (ws (nodeAt ch sn).id) then sp else 0) :=
            stack_cost_congr o sp ch ws2 ws rest
              (fun s2 hs2r => by rw [hws2eq s2 hs2r]; exact ⟨rfl, rfl⟩) _
          rw [hcostc] at ihr
          have hlenrw : o.len ((upd ws (nodeAt ch sn).id ((ws (nodeAt ch sn).id).set_pos
              (o.real_coord (lp + if o.sized_length (ws (nodeAt ch sn).id) then sg else 0)
                (cp + pad))) (nodeAt ch sn).id).size) =
              o.len ((ws (nodeAt ch sn).id).size) := by
            rw [upd_same, set_pos_size]
          rw [hlenrw] at ihr
          have hl := hlens sn (List.mem_cons_self _ _)
          obtain ⟨ih1, ih2, ih3⟩ := ihr
          refine ⟨by linarith, ?_, ih3⟩
          rw [stack_cost]
          linarith

theorem expansion_phase_facts (o : Orient) (sp pad : ℚ) (sa : Size)
    (ch : List WidgetNode) (sns : List Nat) (ws ws2 : Store)
    (hidn : (sns.map (fun sn => (nodeAt ch sn).id)).Nodup)
    (hk : 0 < (sns.filter (fun sn => o.sized_length (ws (nodeAt ch sn).id))).length)
    (hlen : sns.length < 2 ^ 64)
    (hslack : 0 ≤ spec_slack o sp pad sa ch sns ws)
    (hlens : ∀ sn ∈ sns, 0 ≤ o.len ((ws (nodeAt ch sn).id).size))
    (hws2 : ws2 = (if (expand_spacers o sp pad sa ch sns (apply_cross o pad sa ch sns ws)).2
        then (expand_spacers o sp pad sa ch sns (apply_cross o pad sa ch sns ws)).1
        else expand_expandable_widgets o sp pad sa ch sns
          (expand_spacers o sp pad sa ch sns (apply_cross o pad sa ch sns ws)).1)) :
    (∀ sn ∈ sns, 0 ≤ o.len ((ws2 (nodeAt ch sn).id).size)) ∧
    (∀ sn ∈ sns, (ws2 (nodeAt ch sn).id).kind = (ws (nodeAt ch sn).id).kind ∧
      (ws2 (nodeAt ch sn).id).min_size = (ws (nodeAt ch sn).id).min_size ∧
      o.cross ((ws2 (nodeAt ch sn).id).size) =
        o.cross ((apply_cross o pad sa ch sns ws (nodeAt ch sn).id).size)) ∧
    sns.foldl (fun acc sn => acc + o.len ((ws2 (nodeAt ch sn).id).size)) 0 ≤
      sns.foldl (fun acc sn => acc + o.len ((ws (nodeAt ch sn).id).size)) 0 +
        spec_slack o sp pad sa ch sns ws := by
  have hview := apply_cross_exp_view o pad sa ch sns ws hidn
  have hE : expandable_length o sp pad sa ch sns (apply_cross o pad sa ch sns ws) =
      spec_slack o sp pad sa ch sns ws := by
    rw [expandable_length_congr o sp pad sa ch sns _ ws hview]
    exact expandable_length_eq_spec o sp pad sa ch sns ws hk hlen
  have hsum1 : sns.foldl (fun acc sn =>
      acc + o.len ((apply_cross o pad sa ch sns ws (nodeAt ch sn).id).size)) 0 =
      sns.foldl (fun acc sn => acc + o.len ((ws (nodeAt ch sn).id).size)) 0 :=
    foldl_len_congr o ch _ ws sns (fun sn hsn => (hview sn hsn).2.2.2.2) 0
  rcases hcs : count_spacers ch sns (apply_cross o pad sa ch sns ws) with _ | m
  · have hspeq : expand_spacers o sp pad sa ch sns (apply_cross o pad sa ch sns ws) =
        (apply_cross o pad sa ch sns ws, false) := by
      rw [expand_spacers, hcs]
      simp
    rw [hspeq] at hws2
    simp only [Bool.false_eq_true, if_false] at hws2
    have hnosp := count_spacers_zero ch sns _ hcs
    rcases hN : count_expandables o ch sns (apply_cross o pad sa ch sns ws) with _ | n
    · have hws2e : ws2 = apply_cross o pad sa ch sns ws := by
        rw [hws2, expand_expandable_widgets, hN]
        simp
      subst hws2e
      refine ⟨?_, ?_, ?_⟩
      · intro sn hsn
        rw [(hview sn hsn).2.2.2.2]
        exact hlens sn hsn
      · intro sn hsn
        exact ⟨(hview sn hsn).1, (hview sn hsn).2.1, rfl⟩
      · rw [hsum1]
        linarith
    · have hfold : ∀ sn ∈ sns, ws2 (nodeAt ch sn).id =
          o.expand_length (apply_cross o pad sa ch sns ws (nodeAt ch sn).id)
            (spec_slack o sp pad sa ch sns ws / ((n + 1 : ℕ) : ℚ)) := by
        intro sn hsn
        rw [hws2]
        simp only [expand_expandable_widgets]
        rw [hN]
        rw [if_neg (by omega)]
        rw [expandable_fold_get o _ ch sns _ hidn sn hsn]
        rw [if_neg (by rw [hnosp sn hsn]; simp)]
        rw [hE]
      have hEpos : 0 ≤ spec_slack o sp pad sa ch sns ws / ((n + 1 : ℕ) : ℚ) := by
        apply div_nonneg hslack
        positivity
      refine ⟨?_, ?_, ?_⟩
      · intro sn hsn
        rw [hfold sn hsn, expand_length_len]
        have := hlens sn hsn
        rw [(hview sn hsn).2.2.2.2]
        split
        · linarith
        · linarith
      · intro sn hsn
        rw [hfold sn hsn]
        refine ⟨?_, ?_, expand_length_cross o _ _⟩
        · rw [expand_length_kind]; exact (hview sn hsn).1
        · rw [expand_length_min]; exact (hview sn hsn).2.1
      · have hle : ∀ sn ∈ sns, o.len ((ws2 (nodeAt ch sn).id).size) ≤
            o.len ((ws (nodeAt ch sn).id).size) +
              (if o.length_expandable (apply_cross o pad sa ch sns ws (nodeAt ch sn).id)
                then spec_slack o sp pad sa ch sns ws / ((n + 1 : ℕ) : ℚ) else 0) := by
          intro sn hsn
          rw [hfold sn hsn, expand_length_len, (hview sn hsn).2.2.2.2]
        have hmono := foldl_add_mono
          (fun sn => o.len ((ws2 (nodeAt ch sn).id).size))
          (fun sn => o.len ((ws (nodeAt ch sn).id).size) +
            (if o.length_expandable (apply_cross o pad sa ch sns ws (nodeAt ch sn).id)
              then spec_slack o sp pad sa ch sns ws / ((n + 1 : ℕ) : ℚ) else 0))
          sns 0 0 le_rfl hle
        have hsplit := foldl_add_split
          (fun sn => o.len ((ws (nodeAt ch sn).id).size))
          (spec_slack o sp pad sa ch sns ws / ((n + 1 : ℕ) : ℚ))
          (fun sn => o.length_expandable (apply_cross o pad sa ch sns ws (nodeAt ch sn).id))
          sns 0
        rw [hsplit] at hmono
        have hcount : ((sns.filter (fun sn =>
            o.length_expandable (apply_cross o pad sa ch sns ws (nodeAt ch sn).id))).length : ℚ)
            = ((n + 1 : ℕ) : ℚ) := by
          rw [show (sns.filter (fun sn =>
            o.length_expandable (apply_cross o pad sa ch sns ws (nodeAt ch sn).id))).length =
            count_expandables o ch sns (apply_cross o pad sa ch sns ws) from rfl, hN]
        rw [hcount] at hmono
        rw [div_mul_cancel₀ _ (by positivity : ((n + 1 : ℕ) : ℚ) ≠ 0)] at hmono
        linarith
  · have hc2 : (expand_spacers o sp pad sa ch sns (apply_cross o pad sa ch sns ws)).2 =
        true := by
      simp only [expand_spacers]
      rw [hcs]
      rw [if_neg (by omega)]
    rw [if_pos hc2] at hws2
    have hfold : ∀ sn ∈ sns, ws2 (nodeAt ch sn).id =
        (if ((apply_cross o pad sa ch sns ws (nodeAt ch sn).id).kind == WKind.spacer) = true
          then o.expand_length (apply_cross o pad sa ch sns ws (nodeAt ch sn).id)
            (spec_slack o sp pad sa ch sns ws / ((m + 1 : ℕ) : ℚ))
          else apply_cross o pad sa ch sns ws (nodeAt ch sn).id) := by
      intro sn hsn
      rw [hws2]
      simp only [expand_spacers]
      rw [hcs]
      rw [if_neg (by omega)]
      dsimp only
      rw [spacer_fold_get o _ ch sns _ hidn sn hsn]
      rw [hE]
    have hEpos : 0 ≤ spec_slack o sp pad sa ch sns ws / ((m + 1 : ℕ) : ℚ) := by
      apply div_nonneg hslack
      positivity
    refine ⟨?_, ?_, ?_⟩
    · intro sn hsn
      rw [hfold sn hsn]
      have := hlens sn hsn
      split
      · rw [expand_length_len, (hview sn hsn).2.2.2.2]
        split
        · linarith
        · linarith
      · rw [(hview sn hsn).2.2.2.2]
        linarith
    · intro sn hsn
      rw [hfold sn hsn]
      split
      · refine ⟨?_, ?_, expand_length_cross o _ _⟩
        · rw [expand_length_kind]; exact (hview sn hsn).1
        · rw [expand_length_min]; exact (hview sn hsn).2.1
      · exact ⟨(hview sn hsn).1, (hview sn hsn).2.1, rfl⟩
    · have hle : ∀ sn ∈ sns, o.len ((ws2 (nodeAt ch sn).id).size) ≤
          o.len ((ws (nodeAt ch sn).id).size) +
            (if ((apply_cross o pad sa ch sns ws (nodeAt ch sn).id).kind == WKind.spacer) = true
              then spec_slack o sp pad sa ch sns ws / ((m + 1 : ℕ) : ℚ) else 0) := by
        intro sn hsn
        rw [hfold sn hsn]
        split
        · rw [expand_length_len, (hview sn hsn).2.2.2.2]
          split
          · linarith
          · linarith
        · rw [(hview sn hsn).2.2.2.2]
          linarith
      have hmono := foldl_add_mono
        (fun sn => o.len ((ws2 (nodeAt ch sn).id).size))
        (fun sn => o.len ((ws (nodeAt ch sn).id).size) +
          (if ((apply_cross o pad sa ch sns ws (nodeAt ch sn).id).kind == WKind.spacer) = true
            then spec_slack o sp pad sa ch sns ws / ((m + 1 : ℕ) : ℚ) else 0))
        sns 0 0 le_rfl hle
      have hsplit := foldl_add_split
        (fun sn => o.len ((ws (nodeAt ch sn).id).size))
        (spec_slack o sp pad sa ch sns ws / ((m + 1 : ℕ) : ℚ))
        (fun sn => (apply_cross o pad sa ch sns ws (nodeAt ch sn).id).kind == WKind.spacer)
        sns 0
      rw [hsplit] at hmono
      have hcount : ((sns.filter (fun sn =>
          (apply_cross o pad sa ch sns ws (nodeAt ch sn).id).kind == WKind.spacer)).length : ℚ)
          = ((m + 1 : ℕ) : ℚ) := by
        rw [show (sns.filter (fun sn =>
          (apply_cross o pad sa ch sns ws (nodeAt ch sn).id).kind == WKind.spacer)).length =
          count_spacers ch sns (apply_cross o pad sa ch sns ws) from rfl, hcs]
      rw [hcount] at hmono
      rw [div_mul_cancel₀ _ (by positivity : ((m + 1 : ℕ) : ℚ) ≠ 0)] at hmono
      linarith

/-- C4 (amended): for a stack container processed by phase-2 application
with nonnegative padding and spacing, at least one length-sized subnode,
nonnegative subnode lengths, subnode cross sizes fitting inside the
available cross extent minus both paddings, and nonnegative slack, every
subnode child's rectangle (in length/cross coordinates) lies within the
container's rectangle spanned by the passed origin and the container
widget's size; widget ids must be distinct across the subnode subtrees. -/
theorem stack_containment (fuel i : Nat) (d : StackLayoutData)
    (ch : List WidgetNode) (orig_pos : Coord) (ws out : Store)
    (h : apply_sizes (fuel + 1) (.mk i (some d) ch) orig_pos ws = some out)
    (hidn : (d.subnodes.map (fun sn => (nodeAt ch sn).id)).Nodup)
    (hpw : List.Pairwise (fun a b => ∀ x ∈ node_ids (nodeAt ch a),
      x ∉ node_ids (nodeAt ch b)) d.subnodes)
    (hown : ∀ sn ∈ d.subnodes, (nodeAt ch sn).id ∉ kids_ids (nodeAt ch sn).children)
    (hpad : 0 ≤ d.padding) (hspc : 0 ≤ d.spacing)
    (hk : 0 < (d.subnodes.filter
      (fun sn => d.orient.sized_length (ws (nodeAt ch sn).id))).length)
    (hlen : d.subnodes.length < 2 ^ 64)
    (hlens : ∀ sn ∈ d.subnodes, 0 ≤ d.orient.len ((ws (nodeAt ch sn).id).size))
    (hcrossfit : ∀ sn ∈ d.subnodes, d.orient.cross ((ws (nodeAt ch sn).id).size) ≤
      d.orient.cross ((ws i).size) - 2 * d.padding)
    (hslack : 0 ≤ spec_slack d.orient d.spacing d.padding ((ws i).size) ch d.subnodes ws) :
    ∀ sn ∈ d.subnodes,
      (d.orient.len_cross_pos orig_pos).1 ≤
          (d.orient.len_cross_pos ((out (nodeAt ch sn).id).position)).1 ∧
      (d.orient.len_cross_pos ((out (nodeAt ch sn).id).position)).1 +
          d.orient.len ((out (nodeAt ch sn).id).size) ≤
        (d.orient.len_cross_pos orig_pos).1 + d.orient.len ((ws i).size) ∧
      (d.orient.len_cross_pos orig_pos).2 ≤
          (d.orient.len_cross_pos ((out (nodeAt ch sn).id).position)).2 ∧
      (d.orient.len_cross_pos ((out (nodeAt ch sn).id).position)).2 +
          d.orient.cross ((out (nodeAt ch sn).id).size) ≤
        (d.orient.len_cross_pos orig_pos).2 + d.orient.cross ((ws i).size) := by
  simp only [apply_sizes] at h
  rcases hbo : d.subnodes.all (fun sn => sn < ch.length) with _ | _
  · rw [hbo] at h; simp at h
  · rw [hbo] at h
    set ws2 := (if (expand_spacers d.orient d.spacing d.padding ((ws i).size) ch d.subnodes
        (apply_cross d.orient d.padding ((ws i).size) ch d.subnodes ws)).2
      then (expand_spacers d.orient d.spacing d.padding ((ws i).size) ch d.subnodes
        (apply_cross d.orient d.padding ((ws i).size) ch d.subnodes ws)).1
      else expand_expandable_widgets d.orient d.spacing d.padding ((ws i).size) ch d.subnodes
        (expand_spacers d.orient d.spacing d.padding ((ws i).size) ch d.subnodes
          (apply_cross d.orient d.padding ((ws i).size) ch d.subnodes ws)).1) with hw2
    obtain ⟨F1, F2, F3⟩ := expansion_phase_facts d.orient d.spacing d.padding ((ws i).size)
      ch d.subnodes ws ws2 hidn hk hlen hslack hlens hw2
    intro sn hsn
    obtain ⟨hb1, hb2, hb3⟩ := apply_positions_bounds fuel d.orient d.padding d.spacing
      (d.orient.len_cross_pos orig_pos).2 ch d.subnodes
      ((d.orient.len_cross_pos orig_pos).1 + d.padding) 0 ws2 out h hpw hown le_rfl hspc hspc
      F1 sn hsn
    have hsz := apply_positions_sizes fuel d.orient d.padding d.spacing
      (d.orient.len_cross_pos orig_pos).2 ch d.subnodes
      ((d.orient.len_cross_pos orig_pos).1 + d.padding) 0 ws2 out h hpw hown sn hsn
    have hfc : d.subnodes.filter (fun sn => d.orient.sized_length (ws2 (nodeAt ch sn).id)) =
        d.subnodes.filter (fun sn => d.orient.sized_length (ws (nodeAt ch sn).id)) :=
      sized_filter_congr d.orient ch d.subnodes ws2 ws
        (fun s2 hs2 => ⟨(F2 s2 hs2).1, (F2 s2 hs2).2.1⟩)
    have hcost := stack_cost_le d.orient d.spacing ch ws2 d.subnodes 0 le_rfl hspc
    rw [hfc] at hcost
    rw [if_neg (by omega)] at hcost
    have hkcast : (((d.subnodes.filter
        (fun sn => d.orient.sized_length (ws (nodeAt ch sn).id))).length - 1 : ℕ) : ℚ) =
        ((d.subnodes.filter
          (fun sn => d.orient.sized_length (ws (nodeAt ch sn).id))).length : ℚ) - 1 := by
      rw [Nat.cast_sub hk]
      rfl
    have hsdef : spec_slack d.orient d.spacing d.padding ((ws i).size) ch d.subnodes ws =
        d.orient.len ((ws i).size) - 2 * d.padding -
          d.spacing * (((d.subnodes.filter
            (fun sn => d.orient.sized_length (ws (nodeAt ch sn).id))).length : ℚ) - 1) -
          d.subnodes.foldl
            (fun acc sn => acc + d.orient.len ((ws (nodeAt ch sn).id).size)) 0 := by
      rw [spec_slack]
      rw [hkcast]
    have hcost2 : stack_cost d.orient d.spacing ch ws2 d.subnodes 0 ≤
        d.orient.len ((ws i).size) - 2 * d.padding := by
      have := F3
      rw [hsdef] at this
      linarith
    have hcross2 : d.orient.cross ((ws2 (nodeAt ch sn).id).size) ≤
        d.orient.cross ((ws i).size) - d.padding := by
      rw [(F2 sn hsn).2.2]
      rw [apply_cross_get d.orient d.padding ((ws i).size) ch d.subnodes ws hidn sn hsn]
      rw [set_cross_cross]
      split
      · linarith
      · have := hcrossfit sn hsn
        linarith
    refine ⟨by linarith, ?_, by linarith, ?_⟩
    · linarith
    · have hce : d.orient.cross ((out (nodeAt ch sn).id).size) =
          d.orient.cross ((ws2 (nodeAt ch sn).id).size) := by rw [hsz]
      rw [hce, hb3]
      linarith

/-- Store for the containment counterexample: the container widget 0 sits
at the origin with size 0 by 0; widget 1 is a fixed 20 by 20 plain widget
already carrying its phase-1 size. -/
def c4_store : Store := fun i =>
  if i = 0 then plain_widget ⟨0, 0⟩ false false
  else { plain_widget ⟨20, 20⟩ false false with layout := ⟨⟨0, 0⟩, ⟨20, 20⟩⟩ }

/-- Horizontal container with negative padding -10 (set_padding accepts
any f64) and spacing 0 holding the fixed widget. -/
def c4_node : WidgetNode := .mk 0 (some ⟨.horizontal, -10, 0, [0]⟩) [.mk 1 none []]

set_option maxHeartbeats 2000000 in
/-- Counterexample to the claimed containment invariant: with padding -10
the slack is exactly 0 (nonnegative), yet phase-2 places the child at
x = -10 while the container sits at x = 0 with width 0, so the child's
rectangle juts out of its parent's. -/
theorem containment_cex :
    0 ≤ spec_slack .horizontal 0 (-10) ((c4_store 0).size) [WidgetNode.mk 1 none []] [0]
      c4_store ∧
    (apply_sizes 3 c4_node ⟨0, 0⟩ c4_store).map
      (fun out => ((out 1).position.x, (out 0).position.x)) = some (-10, 0) ∧
    (-10 : ℚ) < 0 := by
  refine ⟨?_, ?_, by norm_num⟩
  · norm_num [spec_slack, c4_store, plain_widget, nodeAt, Orient.len, Orient.sized_length,
      Widget.sized_width, Widget.size, List.filter]
  · norm_num [apply_sizes, apply_positions, apply_cross, expand_spacers,
      expand_expandable_widgets, count_spacers, count_expandables, expandable_length,
      usize_sub_one, c4_node, c4_store, nodeAt, plain_widget, Orient.len, Orient.cross,
      Orient.sized_length, Orient.length_expandable, Orient.set_cross, Orient.expand_length,
      Orient.len_cross_pos, Orient.real_coord, Widget.sized_width, Widget.sized_height,
      Widget.expand_width, Widget.size, Widget.set_pos, Widget.position, upd, List.filter]

/-- Store for the containment witness: the container widget 0 has size
100 by 50; widget 1 is a fixed 10 by 10 plain widget with its phase-1
size; widget 2 is a zero-minimum width-expandable plain widget. -/
def c4w_store : Store := fun i =>
  if i = 0 then { plain_widget ⟨0, 0⟩ false false with layout := ⟨⟨0, 0⟩, ⟨100, 50⟩⟩ }
  else if i = 1 then { plain_widget ⟨10, 10⟩ false false with layout := ⟨⟨0, 0⟩, ⟨10, 10⟩⟩ }
  else plain_widget ⟨0, 0⟩ true false

/-- The two leaf children of the containment witness container. -/
def c4w_ch : List WidgetNode := [.mk 1 none [], .mk 2 none []]

/-- Horizontal container (padding 2, spacing 3) over c4w_ch. -/
def c4w_node : WidgetNode := .mk 0 (some ⟨.horizontal, 2, 3, [0, 1]⟩) c4w_ch

set_option maxHeartbeats 2000000 in
theorem stack_containment_witness :
    ∃ out, apply_sizes 5 c4w_node ⟨7, 11⟩ c4w_store = some out ∧
      ∀ sn ∈ [0, 1],
        (Orient.horizontal.len_cross_pos (⟨7, 11⟩ : Coord)).1 ≤
            (Orient.horizontal.len_cross_pos ((out (nodeAt c4w_ch sn).id).position)).1 ∧
        (Orient.horizontal.len_cross_pos ((out (nodeAt c4w_ch sn).id).position)).1 +
            Orient.horizontal.len ((out (nodeAt c4w_ch sn).id).size) ≤
          (Orient.horizontal.len_cross_pos (⟨7, 11⟩ : Coord)).1 +
            Orient.horizontal.len ((c4w_store 0).size) ∧
        (Orient.horizontal.len_cross_pos (⟨7, 11⟩ : Coord)).2 ≤
            (Orient.horizontal.len_cross_pos ((out (nodeAt c4w_ch sn).id).position)).2 ∧
        (Orient.horizontal.len_cross_pos ((out (nodeAt c4w_ch sn).id).position)).2 +
            Orient.horizontal.cross ((out (nodeAt c4w_ch sn).id).size) ≤
          (Orient.horizontal.len_cross_pos (⟨7, 11⟩ : Coord)).2 +
            Orient.horizontal.cross ((c4w_store 0).size) := by
  rcases hr : apply_sizes 5 c4w_node ⟨7, 11⟩ c4w_store with _ | out
  · exact absurd hr (by
      norm_num [apply_sizes, apply_positions, apply_cross, expand_spacers,
        expand_expandable_widgets, count_spacers, count_expandables, expandable_length,
        usize_sub_one, c4w_node, c4w_ch, c4w_store, nodeAt, plain_widget, Orient.len,
        Orient.cross, Orient.sized_length, Orient.length_expandable, Orient.set_cross,
        Orient.expand_length, Orient.len_cross_pos, Orient.real_coord, Widget.sized_width,
        Widget.sized_height, Widget.expand_width, Widget.size, Widget.set_pos, upd,
        List.filter]
      exact fun hx => Option.noConfusion hx)
  · refine ⟨out, rfl, ?_⟩
    exact stack_containment 4 0 ⟨.horizontal, 2, 3, [0, 1]⟩ c4w_ch ⟨7, 11⟩ c4w_store out hr
      (by norm_num [nodeAt, c4w_ch])
      (by norm_num [List.pairwise_cons, node_ids, kids_ids, nodeAt, c4w_ch])
      (by
        intro sn hsn
        have hc : sn = 0 ∨ sn = 1 := by simpa using hsn
        rcases hc with rfl | rfl <;> simp [nodeAt, c4w_ch, kids_ids])
      (by norm_num)
      (by norm_num)
      (by norm_num [c4w_ch, c4w_store, nodeAt, plain_widget, Orient.sized_length,
        Widget.sized_width, List.filter])
      (by norm_num)
      (by
        intro sn hsn
        have hc : sn = 0 ∨ sn = 1 := by simpa using hsn
        rcases hc with rfl | rfl <;>
          norm_num [c4w_ch, c4w_store, nodeAt, plain_widget, Orient.len, Widget.size])
      (by
        intro sn hsn
        have hc : sn = 0 ∨ sn = 1 := by simpa using hsn
        rcases hc with rfl | rfl <;>
          norm_num [c4w_ch, c4w_store, nodeAt, plain_widget, Orient.cross, Widget.size])
      (by norm_num [spec_slack, c4w_ch, c4w_store, nodeAt, plain_widget, Orient.len,
        Orient.sized_length, Widget.sized_width, Widget.size, List.filter])

end PuglUI
